import Mathlib

/-!
Verification development for the vibe-widgets artifact lifecycle:
the widget store (content-addressable cache, versioning), the code
validator and generation/repair loop, and the incremental audit engine.

Python sources are embedded shallowly: dictionaries become structures,
in-place mutation becomes explicit state passing, `None`-able values
become `Option`, and raising code returns `Except`/`Option`.  Cryptographic
digests (`hashlib.sha256`, `hashlib.md5`) are modelled by a fixed
deterministic stand-in digest of the input string: no theorem below
depends on the value or collision behaviour of the digest, only on its
determinism, exactly as the audited properties do.
-/

set_option maxRecDepth 8000

namespace VibeWidget

/-- Truncation `s[:n]` (Python slicing counts characters). -/
def strTake (s : String) (n : Nat) : String :=
  String.mk (s.toList.take n)

/-- Strip leading and trailing whitespace, modelling Python
`str.strip()`. -/
def pyStrip (s : String) : String :=
  String.mk (((s.toList.dropWhile Char.isWhitespace).reverse.dropWhile
    Char.isWhitespace).reverse)

/-- ASCII lowercasing, modelling Python `str.lower()` on the
identifier-ish text it is applied to. -/
def pyToLower (s : String) : String :=
  String.mk (s.toList.map Char.toLower)

/-- Bool-valued substring test, modelling the Python `in` operator on
strings (`pat in s`). -/
def strContains (s pat : String) : Bool :=
  go pat.toList s.toList
where
  go (p : List Char) : List Char → Bool
    | [] => p.isEmpty
    | c :: rest => List.isPrefixOf p (c :: rest) || go p rest

/-- Count of non-overlapping occurrences of `pat` in `s`, modelling
Python `s.count(pat)` for nonempty `pat` (only ever used with nonempty
patterns in the source). -/
def strCount (s pat : String) : Nat :=
  go pat.toList s.toList s.length
where
  go (p : List Char) : List Char → Nat → Nat
    | _, 0 => 0
    | [], _ => 0
    | c :: rest, fuel + 1 =>
      if List.isPrefixOf p (c :: rest) then
        1 + go p ((c :: rest).drop p.length) fuel
      else
        go p rest fuel

/-- Hexadecimal rendering of a natural number, zero-padded to `width`
digits (lowercase, as Python's `hexdigest`). -/
def natToHex (width n : Nat) : String :=
  let ds := Nat.toDigits 16 n
  String.mk (List.replicate (width - ds.length) '0' ++ ds)

/-- Deterministic stand-in for `hashlib.sha256(s.encode()).hexdigest()`.
The real function is an opaque cryptographic digest; every property
proved in this file depends only on the digest being a deterministic
function of its input string, which this model provides. -/
def sha256Hex (s : String) : String :=
  natToHex 16 (s.toList.foldl
    (fun h c => (h * 1099511628211 + c.toNat + 1) % (2 ^ 64)) 14695981039346656037)

/-- Deterministic stand-in for `hashlib.md5(s.encode()).hexdigest()`,
kept distinct from the sha256 stand-in. -/
def md5Hex (s : String) : String :=
  natToHex 16 (("md5//" ++ s).toList.foldl
    (fun h c => (h * 1099511628211 + c.toNat + 1) % (2 ^ 64)) 1099511628211)

/-- JSON escaping of one character as performed by `json.dumps` with the
default `ensure_ascii=True`. -/
def jsonEscapeChar (c : Char) : List Char :=
  if c = '"' then ['\\', '"']
  else if c = '\\' then ['\\', '\\']
  else if c = '\n' then ['\\', 'n']
  else if c = '\t' then ['\\', 't']
  else if c = '\r' then ['\\', 'r']
  else if c.toNat = 8 then ['\\', 'b']
  else if c.toNat = 12 then ['\\', 'f']
  else if c.toNat < 32 ∨ c.toNat > 126 then
    if c.toNat < 65536 then '\\' :: 'u' :: (natToHex 4 c.toNat).toList
    else
      let v := c.toNat - 65536
      ('\\' :: 'u' :: (natToHex 4 (55296 + v / 1024)).toList) ++
      ('\\' :: 'u' :: (natToHex 4 (56320 + v % 1024)).toList)
  else [c]

/-- A JSON string literal for `s`, as produced by `json.dumps(s)`. -/
def jsonQuote (s : String) : String :=
  "\"" ++ String.mk (s.toList.foldr (fun c acc => jsonEscapeChar c ++ acc) []) ++ "\""

/-- Python `s.split()` with no arguments: split on whitespace runs,
dropping empty pieces. -/
def pySplit (s : String) : List String :=
  go s.toList []
where
  go : List Char → List Char → List String
    | [], acc => if acc.isEmpty then [] else [String.mk acc.reverse]
    | c :: rest, acc =>
      if c.isWhitespace then
        if acc.isEmpty then go rest [] else String.mk acc.reverse :: go rest []
      else go rest (c :: acc)

/-- Whitespace normalization `" ".join(s.split())` used on descriptions
and theme text before hashing. -/
def normalizeWs (s : String) : String :=
  " ".intercalate (pySplit s)

/-- First-occurrence deduplication, modelling `list(dict.fromkeys(l))`
(and standing in, deterministically, for `list(set(l))` whose order
Python leaves unspecified). -/
def dedupFirst {α : Type} [BEq α] (l : List α) : List α :=
  l.foldl (fun acc x => if acc.contains x then acc else acc ++ [x]) []

/-- Strict ordering on string pairs as Python compares 2-tuples of
strings, used by `sorted(exports.items())`. -/
def pairLt (a b : String × String) : Bool :=
  decide (a.1 < b.1) || (a.1 == b.1 && decide (a.2 < b.2))

/-- Stable insertion used by the pair sort. -/
def insertPairAsc (x : String × String) : List (String × String) → List (String × String)
  | [] => [x]
  | y :: ys => if pairLt x y then x :: y :: ys else y :: insertPairAsc x ys

/-- Stable ascending sort of (name, description) pairs, modelling
Python's `sorted(items)`. -/
def sortPairs (l : List (String × String)) : List (String × String) :=
  l.foldl (fun acc x => insertPairAsc x acc) []

/-- `json.dumps(items)` for a list of string 2-tuples. -/
def jsonPairList (items : List (String × String)) : String :=
  "[" ++ ", ".intercalate
    (items.map (fun p => "[" ++ jsonQuote p.1 ++ ", " ++ jsonQuote p.2 ++ "]")) ++ "]"

/-- `WidgetStore._compute_exports_signature`: empty/absent exports hash
to the empty signature, otherwise the first 8 hex chars of the md5 of
the JSON of the sorted items.  The Python `dict` is modelled as an
association list; `None` and `{}` both become `[]`. -/
def computeExportsSignature (exports : List (String × String)) : String :=
  if exports.isEmpty then "" else strTake (md5Hex (jsonPairList (sortPairs exports))) 8

/-- `WidgetStore._compute_imports_signature`, same shape as the exports
signature. -/
def computeImportsSignature (importsSerialized : List (String × String)) : String :=
  if importsSerialized.isEmpty then ""
  else strTake (md5Hex (jsonPairList (sortPairs importsSerialized))) 8

/-- `WidgetStore._compute_theme_signature`: falsy theme text gives the
empty signature, otherwise the theme text is whitespace-normalized and
md5-hashed.  `None` and `""` are both modelled by `none`/`some ""`. -/
def computeThemeSignature (themeDescription : Option String) : String :=
  match themeDescription with
  | none => ""
  | some t => if t = "" then "" else strTake (md5Hex (normalizeWs t)) 8

/-- The six semantic inputs of `WidgetStore._compute_cache_key`. -/
structure CacheInputs where
  description : String
  dataVarName : Option String
  dataShape : Nat × Nat
  exportsSignature : String
  importsSignature : String
  themeSignature : String
deriving DecidableEq

/-- The canonical serialization `json.dumps(cache_input, sort_keys=True)`
built by `_compute_cache_key`: keys appear in sorted order and the
description is whitespace-stripped first. -/
def cacheString (ci : CacheInputs) : String :=
  "\x7b\"data_shape\": [" ++ toString ci.dataShape.1 ++ ", " ++ toString ci.dataShape.2 ++ "], " ++
  "\"data_var_name\": " ++ jsonQuote (ci.dataVarName.getD "") ++ ", " ++
  "\"description\": " ++ jsonQuote (normalizeWs ci.description) ++ ", " ++
  "\"exports_signature\": " ++ jsonQuote ci.exportsSignature ++ ", " ++
  "\"imports_signature\": " ++ jsonQuote ci.importsSignature ++ ", " ++
  "\"theme_signature\": " ++ jsonQuote ci.themeSignature ++ "\x7d"

/-- `WidgetStore._compute_cache_key`: returns the (full, short) content
hash pair.  The model is not given (and has no access to) the model id,
the notebook path, or any caller environment. -/
def computeCacheKey (ci : CacheInputs) : String × String :=
  let full := sha256Hex (cacheString ci)
  (full, strTake full 10)

/-- The stop-word set of `WidgetStore._generate_slug` (verbatim from the
source; Python set literals with duplicates collapse to this member
list). -/
def stopWords : List String :=
  ["a", "an", "the", "of", "in", "on", "at", "to", "for", "with", "by", "and", "or",
   "i", "me", "my", "myself", "we", "our", "ours", "ourselves", "you", "your", "yours",
   "yourself", "yourselves", "he", "him", "his", "himself", "she", "her", "hers",
   "herself", "it", "its", "itself", "they", "them", "their", "theirs", "themselves",
   "what", "which", "who", "whom", "this", "that", "these", "those", "am", "is", "are",
   "was", "were", "be", "been", "being", "have", "has", "had", "having", "do", "does",
   "did", "doing", "but", "if", "because", "as", "until", "while", "about", "against",
   "between", "into", "through", "during", "before", "after", "above", "below", "from",
   "up", "down", "out", "off", "over", "under", "again", "further", "then", "once",
   "here", "there", "when", "where", "why", "how", "all", "any", "both", "each", "few",
   "more", "most", "other", "some", "such", "no", "nor", "not", "only", "own", "same",
   "so", "than", "too", "very", "s", "t", "can", "will", "just", "don", "should", "now"]

/-- Per-word cleaning in `_generate_slug`: keep alphanumerics, replace
everything else by an underscore. -/
def cleanWord (w : String) : String :=
  String.mk (w.toList.map (fun c => if c.isAlphanum then c else '_'))

/-- One round of Python `s.replace('__', '_')`: replace every
non-overlapping leftmost occurrence. -/
def pyReplaceDunder (s : String) : String :=
  String.mk (go s.toList s.length)
where
  go : List Char → Nat → List Char
    | s, 0 => s
    | [], _ => []
    | c :: rest, fuel + 1 =>
      if List.isPrefixOf ['_', '_'] (c :: rest) then
        '_' :: go (rest.drop 1) fuel
      else
        c :: go rest fuel

/-- Python `code.splitlines()`-style split of `code.split("\n")` used by
the line-hash map: pieces between newline separators, keeping empties. -/
def splitLines (code : String) : List String :=
  go code.toList []
where
  go : List Char → List Char → List String
    | [], acc => [String.mk acc.reverse]
    | c :: rest, acc =>
      if c = '\n' then String.mk acc.reverse :: go rest []
      else go rest (c :: acc)

/-- The `while '__' in slug: slug = slug.replace('__', '_')` loop; each
replacement shrinks the string so `s.length` rounds of fuel reach the
fixpoint. -/
def collapseDunder : Nat → String → String
  | 0, s => s
  | n + 1, s => if strContains s "__" then collapseDunder n (pyReplaceDunder s) else s

/-- Python `slug.strip('_')`. -/
def stripUnderscores (s : String) : String :=
  String.mk (((s.toList.dropWhile (fun c => c = '_')).reverse.dropWhile
    (fun c => c = '_')).reverse)

/-- `WidgetStore._generate_slug`.  The falsy `data_var_name` cases
(`None` and `""`) are both modelled by `none`. -/
def generateSlug (description : String) (dataVarName : Option String) : String :=
  let words := pySplit (pyToLower description)
  let meaningful := (words.filter (fun w => ¬ stopWords.contains w)).take 8
  let slugParts := (meaningful.map cleanWord).filter (fun w => w ≠ "" ∧ w ≠ "_")
  let slug := "_".intercalate slugParts
  let slug := collapseDunder slug.length slug
  let slug := strTake slug 40
  let slug :=
    match dataVarName with
    | some dvn => if slug.length < 35 then strTake (slug ++ "_" ++ dvn) 40 else slug
    | none => slug
  let slug := stripUnderscores slug
  if slug = "" then "widget" else slug

/-- Word characters of the regex class `[a-zA-Z0-9_]`. -/
def isWordChar (c : Char) : Bool :=
  c.isAlphanum || c = '_'

/-- Consume the literal `lit` from the front of `s`. -/
def dropLit : List Char → List Char → Option (List Char)
  | [], s => some s
  | _ :: _, [] => none
  | c :: cs, d :: ds => if c = d then dropLit cs ds else none

/-- Match, at the head of `s`, the regex
`export\s+KW\s+([A-Z][a-zA-Z0-9_]*)\s*TERM` used by
`WidgetStore.extract_components`; on success return the captured name
and the rest of the input after the match. -/
def matchDeclAt (kw : List Char) (term : Char) (s : List Char) : Option (String × List Char) :=
  match dropLit "export".toList s with
  | none => none
  | some r1 =>
    if (r1.takeWhile Char.isWhitespace).isEmpty then none
    else
      match dropLit kw (r1.dropWhile Char.isWhitespace) with
      | none => none
      | some r2 =>
        if (r2.takeWhile Char.isWhitespace).isEmpty then none
        else
          match r2.dropWhile Char.isWhitespace with
          | [] => none
          | c :: r4 =>
            if c.isUpper then
              let name := r4.takeWhile isWordChar
              let r5 := (r4.dropWhile isWordChar).dropWhile Char.isWhitespace
              match r5 with
              | t :: r6 => if t = term then some (String.mk (c :: name), r6) else none
              | [] => none
            else none

/-- `re.findall` driver for `matchDeclAt`: scan left to right, continue
after each non-overlapping match. -/
def findAllDecl (kw : List Char) (term : Char) : Nat → List Char → List String
  | 0, _ => []
  | _ + 1, [] => []
  | fuel + 1, c :: rest =>
    match matchDeclAt kw term (c :: rest) with
    | some (name, r) => name :: findAllDecl kw term fuel r
    | none => findAllDecl kw term fuel rest

/-- `WidgetStore.extract_components`: named capitalized exports matched
by the three `export const/function/class` regexes.  Python finishes
with `list(set(components))`, whose order is unspecified; the model
deduplicates keeping first occurrences. -/
def extractComponents (code : String) : List String :=
  let cs := code.toList
  let n := code.length
  dedupFirst
    (findAllDecl "const".toList '=' n cs ++
     findAllDecl "function".toList '(' n cs ++
     findAllDecl "class".toList '\x7b' n cs)

/-- One record of the widget index (`widgets.json` entry), as built by
`WidgetStore.save`. -/
structure WidgetEntry where
  id : String
  slug : String
  hash : String
  version : Nat
  fileName : String
  description : String
  dataVarName : Option String
  dataShape : Nat × Nat
  model : String
  exportsSignature : String
  importsSignature : String
  themeSignature : String
  themeName : Option String
  themeDescription : Option String
  createdAt : String
  lastUsedAt : String
  notebookPath : Option String
  tags : List String
  origin : String
  remoteUrl : Option String
  baseWidgetId : Option String
  components : List String
deriving DecidableEq

/-- The persistent state of a `WidgetStore`: the index (`widgets.json`)
plus the code payload files in the widgets directory, as a name→content
association list. -/
structure WidgetStoreState where
  widgets : List WidgetEntry
  files : List (String × String)
deriving DecidableEq

/-- `(widgets_dir / name).exists()`. -/
def fileExists (files : List (String × String)) (name : String) : Bool :=
  files.any (fun f => f.1 == name)

/-- `widget_file.write_text(code)`: create or overwrite. -/
def writeFile (files : List (String × String)) (name code : String) : List (String × String) :=
  if fileExists files name then
    files.map (fun f => if f.1 == name then (name, code) else f)
  else files ++ [(name, code)]

/-- `WidgetStore.save`: compute signatures and cache key, derive the
slug, assign `max(existing versions for this slug) + 1` (default 1),
write the payload file, and append a fresh index entry.  `datetime.utcnow()`
is passed in as `now`. -/
def save (st : WidgetStoreState) (now : String) (widgetCode description : String)
    (dataVarName : Option String) (dataShape : Nat × Nat) (model : String)
    (exports importsSerialized : List (String × String))
    (themeName themeDescription notebookPath : Option String) :
    WidgetEntry × WidgetStoreState :=
  let exportsSig := computeExportsSignature exports
  let importsSig := computeImportsSignature importsSerialized
  let themeSig := computeThemeSignature themeDescription
  let key := computeCacheKey
    ⟨description, dataVarName, dataShape, exportsSig, importsSig, themeSig⟩
  let slug := generateSlug description dataVarName
  let existingVersions := (st.widgets.filter (fun e => e.slug == slug)).map (fun e => e.version)
  let version := if existingVersions.isEmpty then 1 else existingVersions.foldl Nat.max 0 + 1
  let fileName := slug ++ "__" ++ key.2 ++ "__v" ++ toString version ++ ".js"
  let entry : WidgetEntry :=
    { id := key.2 ++ "-v" ++ toString version
      slug := slug
      hash := key.1
      version := version
      fileName := fileName
      description := description
      dataVarName := dataVarName
      dataShape := dataShape
      model := model
      exportsSignature := exportsSig
      importsSignature := importsSig
      themeSignature := themeSig
      themeName := themeName
      themeDescription := themeDescription
      createdAt := now
      lastUsedAt := now
      notebookPath := notebookPath
      tags := []
      origin := "local"
      remoteUrl := none
      baseWidgetId := none
      components := extractComponents widgetCode }
  (entry, { widgets := st.widgets ++ [entry], files := writeFile st.files fileName widgetCode })

/-- Stable insertion for the descending-by-version sort performed by
`matching_entries.sort(key=..., reverse=True)`. -/
def insertVersionDesc (x : WidgetEntry) : List WidgetEntry → List WidgetEntry
  | [] => [x]
  | y :: ys => if y.version < x.version then x :: y :: ys else y :: insertVersionDesc x ys

/-- Stable descending sort by `version` of the hash-matching entries. -/
def sortVersionDesc (l : List WidgetEntry) : List WidgetEntry :=
  l.foldl (fun acc x => insertVersionDesc x acc) []

/-- The `for widget_entry in matching_entries:` scan of `lookup`: first
entry whose payload file exists. -/
def firstWithFile (files : List (String × String)) : List WidgetEntry → Option WidgetEntry
  | [] => none
  | e :: rest => if fileExists files e.fileName then some e else firstWithFile files rest

/-- In-index update of the (unique) entry object `lookup` mutates:
replace the first value-equal occurrence. -/
def updateFirstEq (target updated : WidgetEntry) : List WidgetEntry → List WidgetEntry
  | [] => []
  | x :: xs => if x == target then updated :: xs else x :: updateFirstEq target updated xs

/-- `WidgetStore.lookup`: compute the cache key from the six semantic
inputs, scan the index for hash matches, prefer the highest version,
discard matches whose payload file is missing, stamp `last_used_at` on
the returned hit.  Returns the hit (or `none`) together with the
post-lookup store state. -/
def lookup (st : WidgetStoreState) (now : String) (description : String)
    (dataVarName : Option String) (dataShape : Nat × Nat)
    (exports importsSerialized : List (String × String))
    (themeDescription : Option String) :
    Option WidgetEntry × WidgetStoreState :=
  let exportsSig := computeExportsSignature exports
  let importsSig := computeImportsSignature importsSerialized
  let themeSig := computeThemeSignature themeDescription
  let key := computeCacheKey
    ⟨description, dataVarName, dataShape, exportsSig, importsSig, themeSig⟩
  let matching := st.widgets.filter (fun e => e.hash == key.1)
  if matching.isEmpty then (none, st)
  else
    match firstWithFile st.files (sortVersionDesc matching) with
    | none => (none, st)
    | some e =>
      let e2 := { e with lastUsedAt := now }
      (some e2, { st with widgets := updateFirstEq e e2 st.widgets })

/-- Match, at the head of `s`, the signature regex
`export default function \w+\s*\(([^)]*)\)` from
`CodeValidateTool.execute` (check 2); on success return the captured
parameter text. -/
def matchSigAt (s : List Char) : Option (List Char) :=
  match dropLit "export default function ".toList s with
  | none => none
  | some r1 =>
    if (r1.takeWhile isWordChar).isEmpty then none
    else
      match (r1.dropWhile isWordChar).dropWhile Char.isWhitespace with
      | '(' :: r3 =>
        let params := r3.takeWhile (fun c => c ≠ ')')
        match r3.dropWhile (fun c => c ≠ ')') with
        | ')' :: _ => some params
        | _ => none
      | _ => none

/-- `re.search` for the signature regex: first match while scanning left
to right. -/
def findSig : List Char → Option (List Char)
  | [] => none
  | c :: rest =>
    match matchSigAt (c :: rest) with
    | some p => some p
    | none => findSig rest

/-- Occurrence of `model` delimited by `\b` word boundaries inside a
character list whose left context is a non-word character. -/
def containsWordModel (s : List Char) : Bool :=
  go none s
where
  go (prev : Option Char) : List Char → Bool
    | [] => false
    | c :: rest =>
      (List.isPrefixOf "model".toList (c :: rest) &&
        (match prev with
         | some p => !isWordChar p
         | none => true) &&
        (match (c :: rest).drop 5 with
         | [] => true
         | d :: _ => !isWordChar d)) ||
      go (some c) rest

/-- Match, at the head of `s`, the destructuring fallback regex
`export default function \w+\s*\(\s*\{[^}]*\bmodel\b[^}]*\}` (DOTALL)
from check 2. -/
def matchDestructuredAt (s : List Char) : Bool :=
  match dropLit "export default function ".toList s with
  | none => false
  | some r1 =>
    if (r1.takeWhile isWordChar).isEmpty then false
    else
      match (r1.dropWhile isWordChar).dropWhile Char.isWhitespace with
      | '(' :: r3 =>
        match r3.dropWhile Char.isWhitespace with
        | '\x7b' :: r4 =>
          let inner := r4.takeWhile (fun c => c ≠ '\x7d')
          match r4.dropWhile (fun c => c ≠ '\x7d') with
          | '\x7d' :: _ => containsWordModel inner
          | _ => false
        | _ => false
      | _ => false

/-- `re.search` for the destructuring fallback regex. -/
def existsDestructured : List Char → Bool
  | [] => false
  | c :: rest => matchDestructuredAt (c :: rest) || existsDestructured rest

/-- Quote class `["\']` of the CDN import regex. -/
def isQuote (c : Char) : Bool :=
  c = '"' || c = '\''

/-- Match, at the head of `s`, the CDN import regex
`from\s+["\']https://esm\.sh/([^"\']+)["\']` (check 8); on success
return the captured package text and the rest after the match. -/
def matchCdnAt (s : List Char) : Option (String × List Char) :=
  match dropLit "from".toList s with
  | none => none
  | some r1 =>
    if (r1.takeWhile Char.isWhitespace).isEmpty then none
    else
      match r1.dropWhile Char.isWhitespace with
      | [] => none
      | q :: r2 =>
        if isQuote q then
          match dropLit "https://esm.sh/".toList r2 with
          | none => none
          | some r3 =>
            let body := r3.takeWhile (fun c => !isQuote c)
            if body.isEmpty then none
            else
              match r3.dropWhile (fun c => !isQuote c) with
              | q2 :: r4 => if isQuote q2 then some (String.mk body, r4) else none
              | [] => none
        else none

/-- `re.findall` driver for the CDN import regex. -/
def findAllCdn : Nat → List Char → List String
  | 0, _ => []
  | _ + 1, [] => []
  | fuel + 1, c :: rest =>
    match matchCdnAt (c :: rest) with
    | some (imp, r) => imp :: findAllCdn fuel r
    | none => findAllCdn fuel rest

/-- The `validation_result` dict built by `CodeValidateTool.execute`. -/
structure ValidationOutput where
  valid : Bool
  issues : List String
  warnings : List String
  summary : String
deriving DecidableEq

/-- The `ToolResult` dataclass.  Modelled from the spec for the missing
module `vibe_widget/llm/tools/base.py`: a success flag, an output
payload (empty on an internal exception) and an optional error text. -/
structure ToolResult where
  success : Bool
  output : Option ValidationOutput
  error : Option String
deriving DecidableEq

/-- Check 2 of `CodeValidateTool.execute` (only evaluated when the code
contains `export default function`). -/
def sigIssues (code : String) : List String :=
  match findSig code.toList with
  | some params =>
    let p := String.mk params
    if (¬ strContains p "model" ∨ ¬ strContains p "html" ∨ ¬ strContains p "React") ∧
        ¬ existsDestructured code.toList then
      ["Widget function must accept parameters \x7b model, html, React \x7d"]
    else []
  | none => ["Malformed widget function declaration"]

/-- Check 4 body for a single declared export name (nonempty, guarded by
the exception model): capitalized names are skipped entirely; otherwise
a missing `model.set` call and a missing `model.save_changes()` call
each append an issue. -/
def exportIssues (code name : String) : List String :=
  match name.toList with
  | [] => []
  | c :: _ =>
    if c.isUpper then []
    else
      (if ¬ strContains code ("model.set(\"" ++ name ++ "\"") ∧
          ¬ strContains code ("model.set('" ++ name ++ "'") then
        ["Export '" ++ name ++ "' never set with model.set()"]
      else []) ++
      (if strCount code "model.save_changes()" = 0 then
        ["Missing model.save_changes() call for exports"]
      else [])

/-- Check 5 body for a single declared import name: a missing
subscription appends a warning (never an issue). -/
def importWarnings (code name : String) : List String :=
  if ¬ strContains code ("model.on(\"change:" ++ name ++ "\"") ∧
      ¬ strContains code ("model.on('change:" ++ name ++ "'") then
    ["Import '" ++ name ++ "' not subscribed with model.on()"]
  else []

/-- `CodeValidateTool.execute`.  The one reachable exception (indexing
`export_name[0]` of an empty export name) is modelled by the
`Validation error` result the Python `except` branch returns. -/
def executeValidate (code : String) (expectedExports expectedImports : List String) :
    ToolResult :=
  if expectedExports.any (fun n => n = "") then
    { success := false, output := none,
      error := some "Validation error: string index out of range" }
  else
    let issues :=
      (if ¬ strContains code "export default function" then
        ["Missing 'export default function' declaration"] else []) ++
      (if strContains code "export default function" then sigIssues code else []) ++
      (expectedExports.map (exportIssues code)).flatten ++
      (if strContains code "document.body" then
        ["Direct document.body manipulation detected - use refs instead"] else []) ++
      (if strContains code "ReactDOM.render" then
        ["ReactDOM.render not allowed - use html templates"] else [])
    let warnings :=
      (if ¬ strContains code "html`" then
        ["No html template usage found - are you using htm correctly?"] else []) ++
      (expectedImports.map (importWarnings code)).flatten ++
      (if strContains code "className=" ∧ strContains code "html`" then
        ["Use 'class=' not 'className=' in htm templates"] else []) ++
      ((findAllCdn code.length code.toList).map (fun imp =>
        if ¬ strContains imp "@" then
          ["CDN import '" ++ imp ++ "' missing version - should pin version (e.g., d3@7)"]
        else [])).flatten
    { success := issues.isEmpty
      output := some
        { valid := issues.isEmpty
          issues := issues
          warnings := warnings
          summary := "Found " ++ toString issues.length ++ " issues and " ++
            toString warnings.length ++ " warnings" }
      error := if issues.isEmpty then none else some ("; ".intercalate issues) }

/-- Modelled from the spec: the result shape of the Runtime Smoke
Tester (`RuntimeTestTool` in the missing module
`vibe_widget/llm/tools/execution_tools.py`): a pass/fail flag plus an
issue list (spec section 4.3).  The tester itself is taken as an
arbitrary function `String → RuntimeResult` wherever it is needed, so
every theorem quantifies over all possible testers. -/
structure RuntimeResult where
  success : Bool
  issues : List String
deriving DecidableEq

/-- Modelled from the spec: the diagnosis produced by
`ErrorDiagnoseTool` (missing module `execution_tools.py`): error type,
root cause, suggested fix and the full error text, as read back by
`AgenticOrchestrator.fix_runtime_error`. -/
structure Diagnosis where
  errorType : String
  rootCause : String
  suggestedFix : String
  fullError : String
deriving DecidableEq

/-- One call to `AgenticOrchestrator._repair_code`: the issue list put
into the repair prompt and the optional diagnosis section
(`_build_repair_prompt(code, issues, data_info, diagnosis)`). -/
structure RepairCall where
  issues : List String
  diagnosis : Option Diagnosis
deriving DecidableEq

/-- A repair call is the targeted, smallest-change fix exactly when it
carries a diagnosis section; diagnosis-less calls are the broad repair
over the full issue list. -/
def RepairCall.isTargeted (r : RepairCall) : Bool :=
  r.diagnosis.isSome

/-- Modelled from the spec: whether a message "looks like a runtime
error message" (spec section 4.4).  The repository's generation loop
contains no such test; for stating the claim we call a message
runtime-error-shaped when it mentions an Error, as JS runtime error
classes (TypeError, ReferenceError, ...) do. -/
def looksLikeRuntimeErrorMessage (msg : String) : Bool :=
  strContains msg "Error"

/-- The external code-generating collaborator, as the generation loop
observes it: the text answered to the generate call and, for each
repair attempt number (1-based), the text answered to that repair
call.  Indexing repairs by attempt number keeps the model strictly more
general than any deterministic prompt→text function. -/
structure Collaborator where
  genResult : String
  repairResult : Nat → String

/-- Issue collection at the top of each loop iteration in
`AgenticOrchestrator.generate`: validator issues when validation
failed, then runtime issues when the runtime test failed. -/
def collectIssues (validation : ToolResult) (runtime : RuntimeResult) : List String :=
  (if ¬ validation.success then
    (match validation.output with
     | some o => o.issues
     | none => []) else []) ++
  (if ¬ runtime.success then runtime.issues else [])

/-- The `while repair_attempts < self.max_repair_attempts:` loop of
`AgenticOrchestrator.generate`, with `fuel = max_repair_attempts -
repair_attempts` and `attempt = repair_attempts`.  Returns the final
code together with the trace of repair calls made.  Every repair call
passes the full issue list and `diagnosis=None`. -/
def repairLoop (collab : Collaborator) (rt : String → RuntimeResult)
    (expectedExports expectedImports : List String) :
    Nat → Nat → String → ToolResult → RuntimeResult → String × List RepairCall
  | 0, _, code, _, _ => (code, [])
  | fuel + 1, attempt, code, validation, runtime =>
    let issues := collectIssues validation runtime
    if issues.isEmpty then (code, [])
    else
      let code2 := collab.repairResult (attempt + 1)
      let call : RepairCall := { issues := issues, diagnosis := none }
      let res := repairLoop collab rt expectedExports expectedImports fuel (attempt + 1)
        code2 (executeValidate code2 expectedExports expectedImports) (rt code2)
      (res.1, call :: res.2)

/-- The observable outcome of one `AgenticOrchestrator.generate`
request: final code, total collaborator calls, and the repair trace. -/
structure GenerateResult where
  code : String
  collaboratorCalls : Nat
  repairTrace : List RepairCall
deriving DecidableEq

/-- `AgenticOrchestrator.__init__` default for `max_repair_attempts`. -/
def defaultMaxRepairAttempts : Nat := 3

/-- `AgenticOrchestrator.generate`: one generate call, one validation
and one runtime test, then the bounded repair loop.  The generate call
counts as one collaborator call and each loop iteration as one more. -/
def generate (collab : Collaborator) (rt : String → RuntimeResult)
    (maxRepairAttempts : Nat) (exps imps : List (String × String)) : GenerateResult :=
  let expectedExports := exps.map (fun p => p.1)
  let expectedImports := imps.map (fun p => p.1)
  let code := collab.genResult
  let res := repairLoop collab rt expectedExports expectedImports maxRepairAttempts 0
    code (executeValidate code expectedExports expectedImports) (rt code)
  { code := res.1, collaboratorCalls := 1 + res.2.length, repairTrace := res.2 }

/-- `AgenticOrchestrator.fix_runtime_error` (the host-triggered mid-life
fix entry point, distinct from the generation loop): diagnose, then
issue the diagnosis-augmented targeted repair whose single issue is the
diagnosed full error.  The diagnose tool is modelled from the spec as a
function parameter; we record the repair call it makes. -/
def fixRuntimeErrorCall (diagnose : String → String → Diagnosis)
    (code errorMessage : String) : RepairCall :=
  let d := diagnose errorMessage code
  { issues := [d.fullError], diagnosis := some d }

/-- A concern location: the sentinel `global` or a list of 1-based line
numbers (spec section 3). -/
inductive Location where
  | global : Location
  | lines (ls : List Nat) : Location
deriving DecidableEq

/-- Modelled from the spec: `normalize_location` from the missing module
`vibe_widget/utils/audit_store.py`.  The spec fixes a location to be
either the sentinel `global` or an explicit, non-empty list of 1-based
line numbers, so the normalizer maps the empty list to `global` and is
the identity otherwise. -/
def normalizeLocation : Location → Location
  | .global => .global
  | .lines [] => .global
  | .lines (l :: ls) => .lines (l :: ls)

/-- One audit concern as the reconciler reads it: id, location, the
stored per-line hashes (`line_hashes`, absent or empty list when never
captured; entries are `line_hashes` dict lookups and may be `none`),
and an opaque `body` standing for the remaining normalized fields
(summary, details, impact, alternatives, ...) which the reconciler
threads through unchanged. -/
structure Concern where
  id : String
  location : Location
  lineHashes : List (Option String)
  body : String
deriving DecidableEq

/-- Modelled from the spec: `compute_code_hash` (missing module
`audit_store.py`): the whole-artifact content hash. -/
def computeCodeHash (code : String) : String :=
  sha256Hex code

/-- Modelled from the spec: `compute_line_hashes` (missing module
`audit_store.py`): the per-line content hash map, with 1-based line
numbers; entry `n` of the list is the hash of line `n + 1`. -/
def computeLineHashes (code : String) : List String :=
  (splitLines code).map sha256Hex

/-- Dict lookup `line_hashes.get(n)` on a line-hash map: 1-based, keys
outside the map answer `none`. -/
def lineHashAt (hs : List String) (n : Nat) : Option String :=
  if n = 0 then none else hs.get? (n - 1)

/-- The per-concern reuse/staleness test of `VibeWidget._run_audit`
(core.py lines 1251-1271): a global concern is reusable iff the stored
whole-code hash equals the current one; a line-scoped concern is
reusable iff its stored hash list is nonempty, has exactly the same
length as the location list, and agrees with the current hash at every
referenced line.  Returns `true` when reusable. -/
def classifyConcern (prevCodeHash curCodeHash : String) (curLines : List String)
    (c : Concern) : Bool :=
  match normalizeLocation c.location with
  | .global => prevCodeHash == curCodeHash
  | .lines ls =>
    if c.lineHashes.isEmpty || c.lineHashes.length != ls.length then false
    else (ls.zip c.lineHashes).all (fun p => lineHashAt curLines p.1 == p.2)

/-- An audit report payload: concerns, open questions, and an opaque
`meta` standing for the remaining normalized payload fields (version,
widget description, safety block). -/
structure Report where
  concerns : List Concern
  openQuestions : List String
  meta : String
deriving DecidableEq

/-- Modelled from the spec: `strip_internal_fields` (missing module
`audit_store.py`) removes the internal per-line hash bookkeeping from a
report before it is returned or rendered. -/
def stripInternalFields (r : Report) : Report :=
  { r with concerns := r.concerns.map (fun c => { c with lineHashes := [] }) }

/-- Rendering of a location for the YAML view. -/
def locationText : Location → String
  | .global => "global"
  | .lines ls => "[" ++ ", ".intercalate (ls.map toString) ++ "]"

/-- Modelled from the spec: `format_audit_yaml` (missing module
`audit_store.py`): a deterministic rendering of a public report. -/
def formatAuditYaml (r : Report) : String :=
  "concerns:\n" ++
  String.join (r.concerns.map (fun c =>
    "- id: " ++ c.id ++ "\n  location: " ++ locationText c.location ++
    "\n  body: " ++ c.body ++ "\n")) ++
  "open_questions:\n" ++
  String.join (r.openQuestions.map (fun q => "- " ++ q ++ "\n")) ++
  r.meta

/-- Audit level (`fast` or `full`); other strings are rejected by
`_run_audit` before any work happens. -/
inductive Level where
  | fast : Level
  | full : Level
deriving DecidableEq

/-- The identifying entry of a persisted audit record. -/
structure AuditEntry where
  auditId : String
  yamlFileName : String
deriving DecidableEq

/-- One persisted audit record, as `_run_audit` consumes it: the stored
report, its YAML rendering, the whole-code hash and the per-line hash
map at analysis time. -/
structure AuditRecord where
  entry : AuditEntry
  report : Report
  reportYaml : String
  codeHash : String
  lineHashes : List String
deriving DecidableEq

/-- Modelled from the spec: the `AuditStore` (missing module
`audit_store.py`): an append-only collection of audit records indexed
by (artifact id, level); `load_latest_audit` returns the most recent
record for that key and `save_audit` prepends a new record, never
mutating old ones. -/
structure AuditStoreState where
  records : List ((String × Level) × AuditRecord)
deriving DecidableEq

/-- Modelled from the spec: `AuditStore.load_latest_audit`. -/
def loadLatestAudit (st : AuditStoreState) (wid : String) (level : Level) :
    Option AuditRecord :=
  (st.records.find? (fun e => e.1 == (wid, level))).map (fun e => e.2)

/-- Modelled from the spec: `AuditStore.save_audit`: append a fresh
record (with a synthetic id) for this artifact and level. -/
def saveAudit (st : AuditStoreState) (wid : String) (level : Level) (report : Report)
    (reportYaml : String) (codeHash : String) (lineHashes : List String) :
    AuditRecord × AuditStoreState :=
  let auditId := "audit-" ++ toString st.records.length
  let record : AuditRecord :=
    { entry := { auditId := auditId, yamlFileName := auditId ++ ".yaml" }
      report := report
      reportYaml := reportYaml
      codeHash := codeHash
      lineHashes := lineHashes }
  (record, { records := ((wid, level), record) :: st.records })

/-- The changed-line set of `_run_audit` (core.py lines 1294-1300):
line numbers in `[1, max(prevMax, curMax)]` where the previous and
current per-line hashes disagree. -/
def changedLineSet (prevHashes curHashes : List String) : List Nat :=
  (List.range' 1 (max prevHashes.length curHashes.length)).filter
    (fun n => lineHashAt prevHashes n ≠ lineHashAt curHashes n)

/-- The concern part of `VibeWidget._normalize_audit_report` that the
reconciler depends on: ids are stripped and defaulted, locations
normalized, and no `line_hashes` key survives normalization of a fresh
report. -/
def normalizeFreshConcern (c : Concern) : Concern :=
  { id := if pyStrip c.id = "" then "concern.unknown" else pyStrip c.id
    location := normalizeLocation c.location
    lineHashes := []
    body := c.body }

/-- The payload part of `VibeWidget._normalize_audit_report` the
reconciler depends on: normalized concerns plus stripped, non-empty
open questions. -/
def normalizeFreshReport (r : Report) : Report :=
  { concerns := r.concerns.map normalizeFreshConcern
    openQuestions := (r.openQuestions.map pyStrip).filter (fun q => q ≠ "")
    meta := r.meta }

/-- The changed-line intersection test of the fresh-concern filter
(`if changed_lines and location != "global": if not any(line in
changed_lines for line in location): continue`, Python truthiness of
`changed_lines` included). -/
def keepLines (changedLines : Option (List Nat)) (ls : List Nat) : Bool :=
  match changedLines with
  | some ch => if ch.isEmpty then true else ls.any (fun l => ch.contains l)
  | none => true

/-- The fresh-concern filter and line-hash recomputation of `_run_audit`
(core.py lines 1323-1332): locations are normalized in place; when a
truthy changed-line set exists, a line-scoped fresh concern must
reference at least one changed line to survive; every surviving
line-scoped concern gets `line_hashes` recomputed against the current
hash map. -/
def filterFreshConcerns (changedLines : Option (List Nat)) (curLines : List String)
    (cs : List Concern) : List Concern :=
  cs.filterMap (fun c0 =>
    match normalizeLocation c0.location with
    | .global => some { c0 with location := Location.global }
    | .lines ls =>
      if keepLines changedLines ls then
        some { c0 with location := Location.lines ls
                       lineHashes := ls.map (fun l => lineHashAt curLines l) }
      else none)

/-- The merge of `_run_audit` (core.py lines 1334-1339): reused concerns
first, then the fresh survivors whose id does not occur among the
reused ids (the id set is computed once, before the append loop). -/
def mergeConcerns (reused fresh : List Concern) : List Concern :=
  let existingIds := reused.map (fun c => c.id)
  reused ++ fresh.filter (fun c => !(existingIds.contains c.id))

/-- The open-question merge of `_run_audit` (core.py line 1344):
`list(dict.fromkeys([*previous, *new]))`. -/
def mergeQuestions (prev new : List String) : List String :=
  dedupFirst (prev ++ new)

/-- The observable outcome of one `_run_audit` call: the public report,
its YAML, the audit id, and the reused/updated counters. -/
structure AuditRunResult where
  report : Report
  reportYaml : String
  auditId : String
  reusedCount : Nat
  updatedCount : Nat
deriving DecidableEq

/-- The fresh-audit tail of `_run_audit` (core.py lines 1302-1372): one
collaborator call scoped to the changed lines, normalization, the
filter/recompute/merge pipeline, persistence of a new record, and the
result assembly.  Returns (result, new store state, collaborator
calls). -/
def runAuditFresh (st : AuditStoreState) (oracle : Option (List Nat) → Report)
    (level : Level) (curCodeHash : String) (curLines : List String)
    (widgetId : Option String) (reused : List Concern) (prevQuestions : List String)
    (changedLines : Option (List Nat)) :
    AuditRunResult × AuditStoreState × Nat :=
  let fresh := normalizeFreshReport (oracle changedLines)
  let filtered := filterFreshConcerns changedLines curLines fresh.concerns
  let merged := mergeConcerns reused filtered
  let mergedQuestions := mergeQuestions prevQuestions fresh.openQuestions
  let finalReport : Report :=
    { concerns := merged, openQuestions := mergedQuestions, meta := fresh.meta }
  let publicReport := stripInternalFields finalReport
  let yaml := formatAuditYaml publicReport
  let saved := saveAudit st (widgetId.getD "") level finalReport yaml curCodeHash curLines
  ({ report := publicReport
     reportYaml := yaml
     auditId := saved.1.entry.auditId
     reusedCount := reused.length
     updatedCount := filtered.length }, saved.2, 1)

/-- `VibeWidget._run_audit` (core.py lines 1206-1382), with the
display-layer side effects (status traits, IPython display) omitted and
the collaborator (`provider.generate_audit_report` plus JSON parsing)
taken as an oracle from the optional changed-line scope to a raw
report.  Returns the result, the post-run audit store, and the number
of collaborator calls made; raising is modelled by `Except.error`. -/
def runAudit (st : AuditStoreState) (oracle : Option (List Nat) → Report)
    (level : Level) (reuse : Bool) (code : String)
    (widgetId baseWidgetId : Option String) :
    Except String (AuditRunResult × AuditStoreState × Nat) :=
  if code = "" then .error "No widget code available to audit."
  else
    let curCodeHash := computeCodeHash code
    let curLines := computeLineHashes code
    let prevAudit :=
      match (if reuse then widgetId.bind (fun w => loadLatestAudit st w level) else none) with
      | some r => some r
      | none => if reuse then baseWidgetId.bind (fun w => loadLatestAudit st w level) else none
    match prevAudit with
    | some prev =>
      let reused := prev.report.concerns.filter
        (fun c => classifyConcern prev.codeHash curCodeHash curLines c)
      let stale := prev.report.concerns.filter
        (fun c => ¬ classifyConcern prev.codeHash curCodeHash curLines c)
      if stale.isEmpty ∧ prev.codeHash = curCodeHash then
        .ok ({ report := stripInternalFields prev.report
               reportYaml := prev.reportYaml
               auditId := prev.entry.auditId
               reusedCount := reused.length
               updatedCount := 0 }, st, 0)
      else
        let changed := changedLineSet prev.lineHashes curLines
        .ok (runAuditFresh st oracle level curCodeHash curLines widgetId reused
          prev.report.openQuestions (if changed.isEmpty then none else some changed))
    | none =>
      .ok (runAuditFresh st oracle level curCodeHash curLines widgetId [] [] none)

/-- The merged concern list in the words of the reconciliation spec:
all reusable prior concerns followed by exactly those freshly returned
concerns that, when line-scoped while a changed-line set exists,
reference at least one changed line, and whose id does not already
occur among the reused concerns; surviving line-scoped concerns carry
line hashes recomputed from the current hash map.  Stated from the
spec's words, to be compared with the merge pipeline of `_run_audit`. -/
def mergedConcernsClaim (changedLines : Option (List Nat)) (curLines : List String)
    (reused fresh : List Concern) : List Concern :=
  reused ++
    ((fresh.map (fun c =>
        match normalizeLocation c.location with
        | .global => { c with location := Location.global }
        | .lines ls =>
          { c with location := Location.lines ls
                   lineHashes := ls.map (fun l => lineHashAt curLines l) })).filter
      (fun c =>
        (match c.location with
         | .lines ls => keepLines changedLines ls
         | .global => true) &&
        !((reused.map (fun r => r.id)).contains c.id)))

/-- First-seen-order deduplication in the words of the spec: keep each
question at its first occurrence, dropping every later duplicate.
Stated recursively, to be compared with the `dict.fromkeys` fold. -/
def dedupFirstSpec : List String → List String
  | [] => []
  | x :: xs => x :: dedupFirstSpec (xs.filter (fun y => y ≠ x))
termination_by l => l.length
decreasing_by
  simp only [List.length_cons]
  exact Nat.lt_succ_of_le (List.length_filter_le _ _)

/-- A concrete two-line artifact used by audit witnesses. -/
def sampleCode : String := "line one\nline two"

/-- A concrete audit oracle used by witnesses: one global concern, one
line-scoped concern, one open question. -/
def sampleOracle : Option (List Nat) → Report :=
  fun _ =>
    { concerns :=
        [{ id := "data.global", location := Location.global, lineHashes := [], body := "g" },
         { id := "data.lines", location := Location.lines [1], lineHashes := [], body := "l" }]
      openQuestions := ["q1"]
      meta := "m" }

/-- The full content hash both `lookup` and `save` compute from the six
raw cache-key inputs. -/
def fullHashOf (d : String) (v : Option String) (shape : Nat × Nat)
    (exps imps : List (String × String)) (td : Option String) : String :=
  (computeCacheKey ⟨d, v, shape, computeExportsSignature exps,
    computeImportsSignature imps, computeThemeSignature td⟩).1

/-- A concrete one-save store used by witnesses. -/
def sampleStore : WidgetStoreState :=
  (save ⟨[], []⟩ "t0" "c" "bar" none (1, 1) "m" [] [] none none none).2

/-- A concrete widget bundle that passes every structural check (used by
witnesses and counterexamples). -/
def sampleWidgetCode : String :=
  "export default function Widget(\x7b model, html, React \x7d) \x7b return html`x` \x7d"

/-- A runtime tester that always reports one runtime-error-shaped
issue. -/
def failingRuntime : String → RuntimeResult :=
  fun _ => { success := false, issues := ["TypeError: x is undefined"] }

/-- A collaborator whose every answer is the fixed valid bundle. -/
def sampleCollaborator : Collaborator :=
  { genResult := sampleWidgetCode, repairResult := fun _ => sampleWidgetCode }

/-- A concrete diagnose tool used to witness the targeted fix path. -/
def sampleDiagnose : String → String → Diagnosis :=
  fun e _ =>
    { errorType := "runtime", rootCause := "x is undefined",
      suggestedFix := "guard x", fullError := e }

theorem le_foldl_max_init (l : List Nat) (a : Nat) : a ≤ l.foldl Nat.max a := by
  induction l generalizing a with
  | nil => exact Nat.le_refl a
  | cons x xs ih =>
    exact Nat.le_trans (Nat.le_max_left a x) (ih (Nat.max a x))

theorem le_foldl_max (l : List Nat) (a x : Nat) (hx : x ∈ l) : x ≤ l.foldl Nat.max a := by
  induction l generalizing a with
  | nil => cases hx
  | cons y ys ih =>
    rcases List.mem_cons.mp hx with h | h
    · subst h
      exact Nat.le_trans (Nat.le_max_right a x) (le_foldl_max_init ys (Nat.max a x))
    · exact ih (Nat.max a y) h

/-- C6: every save appends a new index entry and never removes or
overwrites an existing one, and the new entry's version is the maximum
version among existing entries with the same slug plus one (1 when the
slug has no prior entry); for any slug, successive saves therefore
produce strictly increasing versions starting at 1. -/
theorem C6_save_version_monotonic (st : WidgetStoreState) (now code d : String)
    (v : Option String) (shape : Nat × Nat) (m : String)
    (exps imps : List (String × String)) (tn td np : Option String) :
    (save st now code d v shape m exps imps tn td np).2.widgets
      = st.widgets ++ [(save st now code d v shape m exps imps tn td np).1] ∧
    (save st now code d v shape m exps imps tn td np).1.version
      = ((st.widgets.filter
          (fun e => e.slug == (save st now code d v shape m exps imps tn td np).1.slug)).map
          (fun e => e.version)).foldl Nat.max 0 + 1 ∧
    ((∀ e ∈ st.widgets, e.slug ≠ (save st now code d v shape m exps imps tn td np).1.slug) →
      (save st now code d v shape m exps imps tn td np).1.version = 1) ∧
    (∀ e ∈ st.widgets, e.slug = (save st now code d v shape m exps imps tn td np).1.slug →
      e.version < (save st now code d v shape m exps imps tn td np).1.version) ∧
    (∀ now2 code2 d2 v2 shape2 m2 exps2 imps2 tn2 td2 np2,
      (save (save st now code d v shape m exps imps tn td np).2
          now2 code2 d2 v2 shape2 m2 exps2 imps2 tn2 td2 np2).1.slug
        = (save st now code d v shape m exps imps tn td np).1.slug →
      (save st now code d v shape m exps imps tn td np).1.version
        < (save (save st now code d v shape m exps imps tn td np).2
            now2 code2 d2 v2 shape2 m2 exps2 imps2 tn2 td2 np2).1.version) := by
  have hmain : ∀ (st' : WidgetStoreState) (now' code' d' : String) (v' : Option String)
      (shape' : Nat × Nat) (m' : String) (exps' imps' : List (String × String))
      (tn' td' np' : Option String),
      (save st' now' code' d' v' shape' m' exps' imps' tn' td' np').2.widgets
        = st'.widgets ++ [(save st' now' code' d' v' shape' m' exps' imps' tn' td' np').1] ∧
      (save st' now' code' d' v' shape' m' exps' imps' tn' td' np').1.slug
        = generateSlug d' v' ∧
      (save st' now' code' d' v' shape' m' exps' imps' tn' td' np').1.version
        = ((st'.widgets.filter (fun e => e.slug == generateSlug d' v')).map
            (fun e => e.version)).foldl Nat.max 0 + 1 := by
    intro st' now' code' d' v' shape' m' exps' imps' tn' td' np'
    refine ⟨rfl, rfl, ?_⟩
    show (if ((st'.widgets.filter (fun e => e.slug == generateSlug d' v')).map
          (fun e => e.version)).isEmpty then 1
        else ((st'.widgets.filter (fun e => e.slug == generateSlug d' v')).map
          (fun e => e.version)).foldl Nat.max 0 + 1)
      = ((st'.widgets.filter (fun e => e.slug == generateSlug d' v')).map
          (fun e => e.version)).foldl Nat.max 0 + 1
    rcases h : ((st'.widgets.filter (fun e => e.slug == generateSlug d' v')).map
      (fun e => e.version)) with _ | ⟨x, xs⟩
    · rw [h]
      rfl
    · rw [h]
      rfl
  obtain ⟨h1, hslug, h2⟩ := hmain st now code d v shape m exps imps tn td np
  rw [hslug] at *
  refine ⟨h1, by rw [h2, hslug], ?_, ?_, ?_⟩
  · intro hnone
    rw [h2]
    have : st.widgets.filter (fun e => e.slug == generateSlug d v) = [] := by
      apply List.filter_eq_nil_iff.mpr
      intro e he
      simpa using hnone e he
    rw [this]
    rfl
  · intro e he hes
    rw [h2]
    have hmem : e.version ∈ (st.widgets.filter (fun e => e.slug == generateSlug d v)).map
        (fun e => e.version) := by
      apply List.mem_map_of_mem
      apply List.mem_filter.mpr
      refine ⟨he, ?_⟩
      rw [← hslug]
      exact beq_iff_eq.mpr hes
    exact Nat.lt_succ_of_le (le_foldl_max _ 0 _ hmem)
  · intro now2 code2 d2 v2 shape2 m2 exps2 imps2 tn2 td2 np2 hsame
    obtain ⟨h1b, hslugb, h2b⟩ := hmain (save st now code d v shape m exps imps tn td np).2
      now2 code2 d2 v2 shape2 m2 exps2 imps2 tn2 td2 np2
    rw [h2b]
    have hmem : (save st now code d v shape m exps imps tn td np).1.version ∈
        (((save st now code d v shape m exps imps tn td np).2.widgets.filter
          (fun e => e.slug == generateSlug d2 v2)).map (fun e => e.version)) := by
      apply List.mem_map_of_mem
      apply List.mem_filter.mpr
      constructor
      · rw [h1]
        exact List.mem_append_right _ (List.mem_singleton.mpr rfl)
      · rw [← hslugb]
        exact beq_iff_eq.mpr hsame.symm
    exact Nat.lt_succ_of_le (le_foldl_max _ 0 _ hmem)

/-- Witness for C6 at a concrete store: the first save of the slug gets
version 1, and a second save of the same description gets a strictly
larger version. -/
theorem C6_save_version_monotonic_witness :
    (save ⟨[], []⟩ "t0" "code" "bar chart of sales by region" none (120, 3) "m"
      [] [] none none none).1.version = 1 ∧
    (save ⟨[], []⟩ "t0" "code" "bar chart of sales by region" none (120, 3) "m"
        [] [] none none none).1.version
      < (save (save ⟨[], []⟩ "t0" "code" "bar chart of sales by region" none (120, 3) "m"
          [] [] none none none).2 "t1" "code2" "bar chart of sales by region" none (120, 3)
          "m2" [] [] none none none).1.version := by
  have h := C6_save_version_monotonic ⟨[], []⟩ "t0" "code" "bar chart of sales by region"
    none (120, 3) "m" [] [] none none none
  refine ⟨h.2.2.1 (by intro e he; cases he), ?_⟩
  exact h.2.2.2.2 "t1" "code2" "bar chart of sales by region" none (120, 3) "m2"
    [] [] none none none rfl

theorem insertVersionDesc_mem {x y : WidgetEntry} {l : List WidgetEntry}
    (h : y ∈ insertVersionDesc x l) : y = x ∨ y ∈ l := by
  induction l with
  | nil =>
    simp only [insertVersionDesc, List.mem_singleton] at h
    exact Or.inl h
  | cons z zs ih =>
    simp only [insertVersionDesc] at h
    split at h
    · rcases List.mem_cons.mp h with h | h
      · exact Or.inl h
      · exact Or.inr h
    · rcases List.mem_cons.mp h with h | h
      · exact Or.inr (List.mem_cons.mpr (Or.inl h))
      · rcases ih h with h | h
        · exact Or.inl h
        · exact Or.inr (List.mem_cons.mpr (Or.inr h))

theorem foldl_insertVersionDesc_mem {l : List WidgetEntry} :
    ∀ {acc : List WidgetEntry} {y : WidgetEntry},
    y ∈ l.foldl (fun acc x => insertVersionDesc x acc) acc → y ∈ acc ∨ y ∈ l := by
  induction l with
  | nil => intro acc y h; exact Or.inl h
  | cons z zs ih =>
    intro acc y h
    rcases ih h with h | h
    · rcases insertVersionDesc_mem h with h | h
      · exact Or.inr (List.mem_cons.mpr (Or.inl h))
      · exact Or.inl h
    · exact Or.inr (List.mem_cons.mpr (Or.inr h))

theorem sortVersionDesc_mem {l : List WidgetEntry} {y : WidgetEntry}
    (h : y ∈ sortVersionDesc l) : y ∈ l := by
  rcases foldl_insertVersionDesc_mem h with h | h
  · cases h
  · exact h

theorem firstWithFile_mem {files : List (String × String)} {l : List WidgetEntry}
    {e : WidgetEntry} (h : firstWithFile files l = some e) : e ∈ l := by
  induction l with
  | nil => cases h
  | cons x xs ih =>
    simp only [firstWithFile] at h
    split at h
    · exact List.mem_cons.mpr (Or.inl (Option.some.inj h).symm)
    · exact List.mem_cons.mpr (Or.inr (ih h))

/-- Projection of an index entry to the fields `lookup` reads: content
hash, version, payload file name. -/
def entryKey (e : WidgetEntry) : String × Nat × String :=
  (e.hash, e.version, e.fileName)

theorem filter_hash_congr {w₁ w₂ : List WidgetEntry} (k : String)
    (h : w₁.map entryKey = w₂.map entryKey) :
    (w₁.filter (fun e => e.hash == k)).map entryKey
      = (w₂.filter (fun e => e.hash == k)).map entryKey := by
  induction w₁ generalizing w₂ with
  | nil =>
    cases w₂ with
    | nil => rfl
    | cons b bs => simp at h
  | cons a as ih =>
    cases w₂ with
    | nil => simp at h
    | cons b bs =>
      simp only [List.map_cons, List.cons.injEq] at h
      obtain ⟨hab, hrest⟩ := h
      have hhash : a.hash = b.hash := congrArg (fun p => p.1) hab
      simp only [List.filter_cons, hhash]
      by_cases hc : (b.hash == k) = true
      · simp only [hc, if_true, List.map_cons, hab, ih hrest]
      · simp [hc, ih hrest]

theorem insertVersionDesc_congr {x₁ x₂ : WidgetEntry} {l₁ l₂ : List WidgetEntry}
    (hx : entryKey x₁ = entryKey x₂) (h : l₁.map entryKey = l₂.map entryKey) :
    (insertVersionDesc x₁ l₁).map entryKey = (insertVersionDesc x₂ l₂).map entryKey := by
  induction l₁ generalizing l₂ with
  | nil =>
    cases l₂ with
    | nil => simp [insertVersionDesc, hx]
    | cons b bs => simp at h
  | cons a as ih =>
    cases l₂ with
    | nil => simp at h
    | cons b bs =>
      simp only [List.map_cons, List.cons.injEq] at h
      obtain ⟨hab, hrest⟩ := h
      have hv : a.version = b.version := congrArg (fun p => p.2.1) hab
      have hvx : x₁.version = x₂.version := congrArg (fun p => p.2.1) hx
      simp only [insertVersionDesc]
      by_cases hc : a.version < x₁.version
      · rw [if_pos hc, if_pos (by rw [← hv, ← hvx]; exact hc)]
        simp only [List.map_cons, hx, hab, hrest]
      · rw [if_neg hc, if_neg (by rw [← hv, ← hvx]; exact hc)]
        simp only [List.map_cons, hab, ih hrest]

theorem sortVersionDesc_congr {l₁ l₂ : List WidgetEntry}
    (h : l₁.map entryKey = l₂.map entryKey) :
    (sortVersionDesc l₁).map entryKey = (sortVersionDesc l₂).map entryKey := by
  have main : ∀ (m₁ m₂ a₁ a₂ : List WidgetEntry),
      m₁.map entryKey = m₂.map entryKey → a₁.map entryKey = a₂.map entryKey →
      (m₁.foldl (fun acc x => insertVersionDesc x acc) a₁).map entryKey
        = (m₂.foldl (fun acc x => insertVersionDesc x acc) a₂).map entryKey := by
    intro m₁
    induction m₁ with
    | nil =>
      intro m₂ a₁ a₂ hm ha
      cases m₂ with
      | nil => exact ha
      | cons b bs => simp at hm
    | cons a as ih =>
      intro m₂ a₁ a₂ hm ha
      cases m₂ with
      | nil => simp at hm
      | cons b bs =>
        simp only [List.map_cons, List.cons.injEq] at hm
        exact ih bs _ _ hm.2 (insertVersionDesc_congr hm.1 ha)
  exact main l₁ l₂ [] [] h rfl

theorem firstWithFile_isSome_congr {files : List (String × String)}
    {l₁ l₂ : List WidgetEntry} (h : l₁.map entryKey = l₂.map entryKey) :
    (firstWithFile files l₁).isSome = (firstWithFile files l₂).isSome := by
  induction l₁ generalizing l₂ with
  | nil =>
    cases l₂ with
    | nil => rfl
    | cons b bs => simp at h
  | cons a as ih =>
    cases l₂ with
    | nil => simp at h
    | cons b bs =>
      simp only [List.map_cons, List.cons.injEq] at h
      obtain ⟨hab, hrest⟩ := h
      have hf : a.fileName = b.fileName := congrArg (fun p => p.2.2) hab
      simp only [firstWithFile, hf]
      by_cases hc : fileExists files b.fileName = true
      · rw [if_pos hc, if_pos hc]
        rfl
      · rw [if_neg hc, if_neg hc]
        exact ih hrest

theorem map_entryKey_isEmpty {l₁ l₂ : List WidgetEntry}
    (h : l₁.map entryKey = l₂.map entryKey) : l₁.isEmpty = l₂.isEmpty := by
  cases l₁ <;> cases l₂ <;> simp_all

theorem lookup_isSome_congr {st₁ st₂ : WidgetStoreState}
    (hw : st₁.widgets.map entryKey = st₂.widgets.map entryKey)
    (hf : st₁.files = st₂.files)
    (now d : String) (v : Option String) (shape : Nat × Nat)
    (exps imps : List (String × String)) (td : Option String) :
    ((lookup st₁ now d v shape exps imps td).1).isSome
      = ((lookup st₂ now d v shape exps imps td).1).isSome := by
  simp only [lookup]
  have hmat := filter_hash_congr ((computeCacheKey ⟨d, v, shape, computeExportsSignature exps,
    computeImportsSignature imps, computeThemeSignature td⟩).1) hw
  have hempty := map_entryKey_isEmpty hmat
  by_cases hc : (st₁.widgets.filter (fun e => e.hash ==
      (computeCacheKey ⟨d, v, shape, computeExportsSignature exps,
        computeImportsSignature imps, computeThemeSignature td⟩).1)).isEmpty = true
  · rw [if_pos hc, if_pos (by rw [← hempty]; exact hc)]
  · rw [if_neg hc, if_neg (by rw [← hempty]; exact hc)]
    have hsort := sortVersionDesc_congr hmat
    have hfw := @firstWithFile_isSome_congr st₁.files _ _ hsort
    rw [← hf]
    rcases h₁ : firstWithFile st₁.files (sortVersionDesc (st₁.widgets.filter
        (fun e => e.hash == (computeCacheKey ⟨d, v, shape, computeExportsSignature exps,
          computeImportsSignature imps, computeThemeSignature td⟩).1))) with _ | e₁ <;>
      rcases h₂ : firstWithFile st₁.files (sortVersionDesc (st₂.widgets.filter
        (fun e => e.hash == (computeCacheKey ⟨d, v, shape, computeExportsSignature exps,
          computeImportsSignature imps, computeThemeSignature td⟩).1))) with _ | e₂
    · rfl
    · rw [h₁, h₂] at hfw
      simp at hfw
    · rw [h₁, h₂] at hfw
      simp at hfw
    · rfl

/-- C2: the content hash is a deterministic function of exactly the six
semantic inputs: descriptions equal after whitespace normalization give
equal keys; save stores, and lookup matches against, the very same
key function of those six inputs; and the model id affects neither the
saved entry (beyond its informational `model` field) nor whether a
subsequent lookup hits. -/
theorem C2_cache_key_six_inputs :
    (∀ (d₁ d₂ : String) (v : Option String) (shape : Nat × Nat) (esig isig tsig : String),
      pySplit d₁ = pySplit d₂ →
      computeCacheKey ⟨d₁, v, shape, esig, isig, tsig⟩
        = computeCacheKey ⟨d₂, v, shape, esig, isig, tsig⟩) ∧
    (∀ st now code d v shape m exps imps tn td np,
      ((save st now code d v shape m exps imps tn td np).1).hash
        = (computeCacheKey ⟨d, v, shape, computeExportsSignature exps,
            computeImportsSignature imps, computeThemeSignature td⟩).1) ∧
    (∀ st now d v shape exps imps td e,
      (lookup st now d v shape exps imps td).1 = some e →
      e.hash = (computeCacheKey ⟨d, v, shape, computeExportsSignature exps,
        computeImportsSignature imps, computeThemeSignature td⟩).1) ∧
    (∀ st now code d v shape m₁ m₂ exps imps tn td np,
      (save st now code d v shape m₁ exps imps tn td np).1
        = { (save st now code d v shape m₂ exps imps tn td np).1 with model := m₁ }) ∧
    (∀ st now code d v shape m₁ m₂ exps imps tn td np now2 d2 v2 shape2 exps2 imps2 td2,
      ((lookup (save st now code d v shape m₁ exps imps tn td np).2
          now2 d2 v2 shape2 exps2 imps2 td2).1).isSome
        = ((lookup (save st now code d v shape m₂ exps imps tn td np).2
            now2 d2 v2 shape2 exps2 imps2 td2).1).isSome) := by
  refine ⟨?_, ?_, ?_, ?_, ?_⟩
  · intro d₁ d₂ v shape esig isig tsig h
    have hn : normalizeWs d₁ = normalizeWs d₂ := by
      unfold normalizeWs
      rw [h]
    unfold computeCacheKey cacheString
    simp only [hn]
  · intro st now code d v shape m exps imps tn td np
    rfl
  · intro st now d v shape exps imps td e he
    simp only [lookup] at he
    split at he
    · cases he
    · split at he
      · cases he
      case _ e₀ hfw =>
        have he₀ : e₀ ∈ st.widgets.filter (fun x => x.hash ==
            (computeCacheKey ⟨d, v, shape, computeExportsSignature exps,
              computeImportsSignature imps, computeThemeSignature td⟩).1) :=
          sortVersionDesc_mem (firstWithFile_mem hfw)
        have hh := (List.mem_filter.mp he₀).2
        have he2 := Option.some.inj he
        rw [← he2]
        exact beq_iff_eq.mp hh
  · intro st now code d v shape m₁ m₂ exps imps tn td np
    rfl
  · intro st now code d v shape m₁ m₂ exps imps tn td np now2 d2 v2 shape2 exps2 imps2 td2
    apply lookup_isSome_congr
    · show (st.widgets ++ [_]).map entryKey = (st.widgets ++ [_]).map entryKey
      rw [List.map_append, List.map_append]
      rfl
    · rfl

/-- Witness for C2: concretely, two descriptions differing only in
redundant whitespace produce the same cache key, and a lookup hit on a
one-entry store carries that key as its hash. -/
theorem C2_cache_key_six_inputs_witness :
    computeCacheKey ⟨"bar  chart", none, (2, 2), "", "", ""⟩
      = computeCacheKey ⟨"bar chart", none, (2, 2), "", "", ""⟩ ∧
    ((lookup ((save ⟨[], []⟩ "t0" "c" "bar chart" none (2, 2) "m" [] [] none none none).2)
        "t1" "bar chart" none (2, 2) [] [] none).1).isSome
      = ((lookup ((save ⟨[], []⟩ "t0" "c" "bar chart" none (2, 2) "m2" [] [] none none none).2)
        "t1" "bar chart" none (2, 2) [] [] none).1).isSome := by
  constructor
  · exact C2_cache_key_six_inputs.1 "bar  chart" "bar chart" none (2, 2) "" "" ""
      (by decide)
  · exact C2_cache_key_six_inputs.2.2.2.2 ⟨[], []⟩ "t0" "c" "bar chart" none (2, 2)
      "m" "m2" [] [] none none none "t1" "bar chart" none (2, 2) [] [] none

theorem mem_insertVersionDesc {x y : WidgetEntry} {l : List WidgetEntry}
    (h : y = x ∨ y ∈ l) : y ∈ insertVersionDesc x l := by
  induction l with
  | nil =>
    rcases h with h | h
    · simp [insertVersionDesc, h]
    · cases h
  | cons z zs ih =>
    simp only [insertVersionDesc]
    split
    · rcases h with h | h
      · exact List.mem_cons.mpr (Or.inl h)
      · exact List.mem_cons.mpr (Or.inr h)
    · rcases h with h | h
      · exact List.mem_cons.mpr (Or.inr (ih (Or.inl h)))
      · rcases List.mem_cons.mp h with h | h
        · exact List.mem_cons.mpr (Or.inl h)
        · exact List.mem_cons.mpr (Or.inr (ih (Or.inr h)))

theorem mem_foldl_insertVersionDesc {l : List WidgetEntry} :
    ∀ {acc : List WidgetEntry} {y : WidgetEntry},
    (y ∈ acc ∨ y ∈ l) → y ∈ l.foldl (fun acc x => insertVersionDesc x acc) acc := by
  induction l with
  | nil =>
    intro acc y h
    rcases h with h | h
    · exact h
    · cases h
  | cons z zs ih =>
    intro acc y h
    rcases h with h | h
    · exact ih (Or.inl (mem_insertVersionDesc (Or.inr h)))
    · rcases List.mem_cons.mp h with h | h
      · exact ih (Or.inl (mem_insertVersionDesc (Or.inl h)))
      · exact ih (Or.inr h)

theorem mem_sortVersionDesc {l : List WidgetEntry} {y : WidgetEntry}
    (h : y ∈ l) : y ∈ sortVersionDesc l :=
  mem_foldl_insertVersionDesc (Or.inr h)

theorem insertVersionDesc_pairwise {x : WidgetEntry} {l : List WidgetEntry}
    (h : l.Pairwise (fun a b => b.version ≤ a.version)) :
    (insertVersionDesc x l).Pairwise (fun a b => b.version ≤ a.version) := by
  induction l with
  | nil => simp [insertVersionDesc]
  | cons y ys ih =>
    obtain ⟨hy, hys⟩ := List.pairwise_cons.mp h
    simp only [insertVersionDesc]
    split
    case _ hc =>
      refine List.pairwise_cons.mpr ⟨?_, h⟩
      intro z hz
      rcases List.mem_cons.mp hz with rfl | hz
      · exact Nat.le_of_lt hc
      · exact Nat.le_trans (hy z hz) (Nat.le_of_lt hc)
    case _ hc =>
      refine List.pairwise_cons.mpr ⟨?_, ih hys⟩
      intro z hz
      rcases insertVersionDesc_mem hz with rfl | hz
      · exact Nat.le_of_not_lt hc
      · exact hy z hz

theorem sortVersionDesc_pairwise (l : List WidgetEntry) :
    (sortVersionDesc l).Pairwise (fun a b => b.version ≤ a.version) := by
  have main : ∀ (m acc : List WidgetEntry),
      acc.Pairwise (fun a b => b.version ≤ a.version) →
      (m.foldl (fun acc x => insertVersionDesc x acc) acc).Pairwise
        (fun a b => b.version ≤ a.version) := by
    intro m
    induction m with
    | nil => intro acc h; exact h
    | cons z zs ih => intro acc h; exact ih _ (insertVersionDesc_pairwise h)
  exact main l [] List.Pairwise.nil

theorem firstWithFile_eq_none {files : List (String × String)} {l : List WidgetEntry} :
    firstWithFile files l = none ↔ ∀ e ∈ l, ¬ fileExists files e.fileName = true := by
  induction l with
  | nil => simp [firstWithFile]
  | cons x xs ih =>
    simp only [firstWithFile]
    by_cases hc : fileExists files x.fileName = true
    · rw [if_pos hc]
      constructor
      · intro h; cases h
      · intro h
        exact absurd hc (h x (List.mem_cons.mpr (Or.inl rfl)))
    · rw [if_neg hc]
      constructor
      · intro h e he
        rcases List.mem_cons.mp he with rfl | he
        · exact hc
        · exact ih.mp h e he
      · intro h
        exact ih.mpr (fun e he => h e (List.mem_cons.mpr (Or.inr he)))

theorem firstWithFile_file {files : List (String × String)} {l : List WidgetEntry}
    {e : WidgetEntry} (h : firstWithFile files l = some e) :
    fileExists files e.fileName = true := by
  induction l with
  | nil => cases h
  | cons x xs ih =>
    simp only [firstWithFile] at h
    split at h
    case _ hc =>
      cases h
      exact hc
    case _ hc => exact ih h

theorem firstWithFile_max {files : List (String × String)} {l : List WidgetEntry}
    {e : WidgetEntry} (hs : l.Pairwise (fun a b => b.version ≤ a.version))
    (h : firstWithFile files l = some e) :
    ∀ e' ∈ l, fileExists files e'.fileName = true → e'.version ≤ e.version := by
  induction l with
  | nil => cases h
  | cons x xs ih =>
    obtain ⟨hx, hxs⟩ := List.pairwise_cons.mp hs
    intro e' he' hf'
    simp only [firstWithFile] at h
    split at h
    case _ hc =>
      cases h
      rcases List.mem_cons.mp he' with rfl | he'
      · exact Nat.le_refl _
      · exact hx e' he'
    case _ hc =>
      rcases List.mem_cons.mp he' with rfl | he'
      · exact absurd hf' hc
      · exact ih hxs h e' he' hf'

/-- C7: lookup is total (modelled as a pure function: it cannot raise),
it returns `none` exactly when no hash-matching index entry has a
backing payload file — a matching entry with a missing payload is
skipped, not an error — and a returned hit carries the computed key as
its hash, has its payload present, and has the highest version among
the matching entries whose payload is present. -/
theorem C7_lookup_missing_payload (st : WidgetStoreState) (now d : String)
    (v : Option String) (shape : Nat × Nat) (exps imps : List (String × String))
    (td : Option String) :
    ((lookup st now d v shape exps imps td).1 = none ↔
      ∀ e ∈ st.widgets.filter (fun x => x.hash == fullHashOf d v shape exps imps td),
        ¬ fileExists st.files e.fileName = true) ∧
    (∀ e, (lookup st now d v shape exps imps td).1 = some e →
      e.hash = fullHashOf d v shape exps imps td ∧
      fileExists st.files e.fileName = true ∧
      ∀ e' ∈ st.widgets.filter (fun x => x.hash == fullHashOf d v shape exps imps td),
        fileExists st.files e'.fileName = true → e'.version ≤ e.version) := by
  constructor
  · simp only [lookup, fullHashOf]
    by_cases hempty : (st.widgets.filter (fun x => x.hash ==
        (computeCacheKey ⟨d, v, shape, computeExportsSignature exps,
          computeImportsSignature imps, computeThemeSignature td⟩).1)).isEmpty = true
    · rw [if_pos hempty]
      simp only [List.isEmpty_iff] at hempty
      rw [hempty]
      simp
    · rw [if_neg hempty]
      rcases hfw : firstWithFile st.files (sortVersionDesc (st.widgets.filter
          (fun x => x.hash == (computeCacheKey ⟨d, v, shape, computeExportsSignature exps,
            computeImportsSignature imps, computeThemeSignature td⟩).1))) with _ | e₀
      · constructor
        · intro _ e he
          exact (firstWithFile_eq_none.mp hfw) e (mem_sortVersionDesc he)
        · intro _
          rfl
      · constructor
        · intro h
          cases h
        · intro h
          have := h e₀ (sortVersionDesc_mem (firstWithFile_mem hfw))
          exact absurd (firstWithFile_file hfw) this
  · intro e he
    simp only [lookup, fullHashOf] at he ⊢
    split at he
    · cases he
    · split at he
      · cases he
      case _ e₀ hfw =>
        have hmem₀ : e₀ ∈ st.widgets.filter (fun x => x.hash ==
            (computeCacheKey ⟨d, v, shape, computeExportsSignature exps,
              computeImportsSignature imps, computeThemeSignature td⟩).1) :=
          sortVersionDesc_mem (firstWithFile_mem hfw)
        have he2 := Option.some.inj he
        subst he2
        refine ⟨?_, ?_, ?_⟩
        · show e₀.hash = _
          exact beq_iff_eq.mp (List.mem_filter.mp hmem₀).2
        · show fileExists st.files e₀.fileName = true
          exact firstWithFile_file hfw
        · intro e' he' hf'
          show e'.version ≤ e₀.version
          exact firstWithFile_max (sortVersionDesc_pairwise _) hfw e'
            (mem_sortVersionDesc he') hf'

/-- Witness for C7 at a concrete store: the lookup after one save hits,
and the hit satisfies the key/payload/version properties. -/
theorem C7_lookup_missing_payload_witness :
    (match (lookup sampleStore "t1" "bar" none (1, 1) [] [] none).1 with
     | some e => e.hash = fullHashOf "bar" none (1, 1) [] [] none ∧
         fileExists sampleStore.files e.fileName = true
     | none => False) := by
  rcases hres : (lookup sampleStore "t1" "bar" none (1, 1) [] [] none).1 with _ | e
  · exact absurd hres (by decide)
  · have h := (C7_lookup_missing_payload sampleStore "t1" "bar" none (1, 1) [] [] none).2
      e hres
    exact ⟨h.1, h.2.1⟩

theorem updateFirstEq_spec {target updated : WidgetEntry} {l : List WidgetEntry}
    (h : target ∈ l) :
    ∃ pre post, l = pre ++ target :: post ∧
      updateFirstEq target updated l = pre ++ updated :: post := by
  induction l with
  | nil => cases h
  | cons x xs ih =>
    by_cases hx : (x == target) = true
    · have hxe : x = target := eq_of_beq hx
      refine ⟨[], xs, by simp [hxe], ?_⟩
      simp only [updateFirstEq, hx, if_true, List.nil_append]
    · have hmem : target ∈ xs := by
        rcases List.mem_cons.mp h with rfl | hmm
        · exact absurd (beq_iff_eq.mpr rfl) hx
        · exact hmm
      obtain ⟨pre, post, h1, h2⟩ := ih hmem
      refine ⟨x :: pre, post, by simp [h1], ?_⟩
      simp only [updateFirstEq, hx, if_false, h2, List.cons_append]
      rfl

/-- C10: the frame effect of `lookup`: on a miss the store is untouched;
on a hit the payload files are untouched and exactly one index entry is
replaced by a copy whose only changed field is `last_used_at` — every
other entry, and every other field of the hit entry (version, hash,
lineage link, ...), survives unchanged. -/
theorem C10_lookup_frame (st : WidgetStoreState) (now d : String) (v : Option String)
    (shape : Nat × Nat) (exps imps : List (String × String)) (td : Option String) :
    ((lookup st now d v shape exps imps td).1 = none →
      (lookup st now d v shape exps imps td).2 = st) ∧
    (∀ e, (lookup st now d v shape exps imps td).1 = some e →
      (lookup st now d v shape exps imps td).2.files = st.files ∧
      ∃ pre post e₀, st.widgets = pre ++ e₀ :: post ∧
        e = { e₀ with lastUsedAt := now } ∧
        (lookup st now d v shape exps imps td).2.widgets = pre ++ e :: post) := by
  constructor
  · intro hnone
    simp only [lookup] at hnone ⊢
    by_cases hempty : (st.widgets.filter (fun x => x.hash ==
        (computeCacheKey ⟨d, v, shape, computeExportsSignature exps,
          computeImportsSignature imps, computeThemeSignature td⟩).1)).isEmpty = true
    · rw [if_pos hempty]
    · rw [if_neg hempty] at hnone ⊢
      rcases hfw : firstWithFile st.files (sortVersionDesc (st.widgets.filter
          (fun x => x.hash == (computeCacheKey ⟨d, v, shape, computeExportsSignature exps,
            computeImportsSignature imps, computeThemeSignature td⟩).1))) with _ | e₀
      · rfl
      · simp only [hfw] at hnone
        exact Option.noConfusion hnone
  · intro e he
    simp only [lookup] at he ⊢
    by_cases hempty : (st.widgets.filter (fun x => x.hash ==
        (computeCacheKey ⟨d, v, shape, computeExportsSignature exps,
          computeImportsSignature imps, computeThemeSignature td⟩).1)).isEmpty = true
    · rw [if_pos hempty] at he
      cases he
    · rw [if_neg hempty] at he ⊢
      rcases hfw : firstWithFile st.files (sortVersionDesc (st.widgets.filter
          (fun x => x.hash == (computeCacheKey ⟨d, v, shape, computeExportsSignature exps,
            computeImportsSignature imps, computeThemeSignature td⟩).1))) with _ | e₀
      · simp only [hfw] at he
        exact Option.noConfusion he
      · simp only [hfw] at he
        have hmem₀ : e₀ ∈ st.widgets :=
          (List.mem_filter.mp (sortVersionDesc_mem (firstWithFile_mem hfw))).1
        have he2 := Option.some.inj he
        subst he2
        obtain ⟨pre, post, h1, h2⟩ :=
          @updateFirstEq_spec _ ({ e₀ with lastUsedAt := now }) _ hmem₀
        exact ⟨rfl, pre, post, e₀, h1, rfl, h2⟩

/-- Witness for C10 at a concrete store: the hit after one save leaves
the files unchanged and the store differs only at the one returned
entry. -/
theorem C10_lookup_frame_witness :
    (match (lookup sampleStore "t1" "bar" none (1, 1) [] [] none).1 with
     | some e =>
         (lookup sampleStore "t1" "bar" none (1, 1) [] [] none).2.files
           = sampleStore.files ∧
         ∃ pre post e₀, sampleStore.widgets = pre ++ e₀ :: post ∧
           e = { e₀ with lastUsedAt := "t1" } ∧
           (lookup sampleStore "t1" "bar" none (1, 1) [] [] none).2.widgets
             = pre ++ e :: post
     | none => False) := by
  rcases hres : (lookup sampleStore "t1" "bar" none (1, 1) [] [] none).1 with _ | e
  · exact absurd hres (by decide)
  · exact (C10_lookup_frame sampleStore "t1" "bar" none (1, 1) [] [] none).2 e hres

theorem repairLoop_spec (collab : Collaborator) (rt : String → RuntimeResult)
    (ee ei : List String) :
    ∀ (fuel attempt : Nat) (code : String) (v : ToolResult) (r : RuntimeResult),
      (repairLoop collab rt ee ei fuel attempt code v r).2.length ≤ fuel ∧
      (repairLoop collab rt ee ei fuel attempt code v r).1
        = (if (repairLoop collab rt ee ei fuel attempt code v r).2.length = 0 then code
           else collab.repairResult
             (attempt + (repairLoop collab rt ee ei fuel attempt code v r).2.length)) ∧
      (∀ call ∈ (repairLoop collab rt ee ei fuel attempt code v r).2,
        call.diagnosis = none) := by
  intro fuel
  induction fuel with
  | zero =>
    intro attempt code v r
    refine ⟨Nat.le_refl 0, rfl, ?_⟩
    intro call hc
    cases hc
  | succ n ih =>
    intro attempt code v r
    simp only [repairLoop]
    by_cases hi : (collectIssues v r).isEmpty = true
    · rw [if_pos hi]
      refine ⟨Nat.zero_le _, rfl, ?_⟩
      intro call hc
      cases hc
    · rw [if_neg hi]
      obtain ⟨h1, h2, h3⟩ := ih (attempt + 1) (collab.repairResult (attempt + 1))
        (executeValidate (collab.repairResult (attempt + 1)) ee ei)
        (rt (collab.repairResult (attempt + 1)))
      refine ⟨Nat.succ_le_succ h1, ?_, ?_⟩
      · rw [h2]
        by_cases hl : (repairLoop collab rt ee ei n (attempt + 1)
            (collab.repairResult (attempt + 1))
            (executeValidate (collab.repairResult (attempt + 1)) ee ei)
            (rt (collab.repairResult (attempt + 1)))).2.length = 0
        · rw [if_pos hl]
          simp only [List.length_cons, hl]
          rfl
        · rw [if_neg hl]
          simp only [List.length_cons]
          rw [if_neg (by omega)]
          congr 1
          omega
      · intro call hc
        rcases List.mem_cons.mp hc with rfl | hc
        · rfl
        · exact h3 call hc

/-- C4: every generation request makes exactly one generate call plus at
most `maxRepairAttempts` repair calls (the constructor default being 3),
hence at most `maxRepairAttempts + 1` collaborator calls in total; the
loop is a total function that always returns the code produced by the
last collaborator call, issues remaining or not — it cannot fail the
request. -/
theorem C4_repair_loop_bounded (collab : Collaborator) (rt : String → RuntimeResult)
    (maxRepairAttempts : Nat) (exps imps : List (String × String)) :
    (generate collab rt maxRepairAttempts exps imps).collaboratorCalls
      = 1 + (generate collab rt maxRepairAttempts exps imps).repairTrace.length ∧
    (generate collab rt maxRepairAttempts exps imps).repairTrace.length
      ≤ maxRepairAttempts ∧
    (generate collab rt maxRepairAttempts exps imps).collaboratorCalls
      ≤ maxRepairAttempts + 1 ∧
    defaultMaxRepairAttempts = 3 ∧
    (generate collab rt maxRepairAttempts exps imps).code
      = (if (generate collab rt maxRepairAttempts exps imps).repairTrace.length = 0
         then collab.genResult
         else collab.repairResult
           (generate collab rt maxRepairAttempts exps imps).repairTrace.length) := by
  obtain ⟨h1, h2, _⟩ := repairLoop_spec collab rt (exps.map (fun p => p.1))
    (imps.map (fun p => p.1)) maxRepairAttempts 0 collab.genResult
    (executeValidate collab.genResult (exps.map (fun p => p.1)) (imps.map (fun p => p.1)))
    (rt collab.genResult)
  refine ⟨rfl, h1, by simpa [Nat.add_comm] using Nat.add_le_add_right h1 1, rfl, ?_⟩
  show (repairLoop collab rt (exps.map (fun p => p.1)) (imps.map (fun p => p.1))
      maxRepairAttempts 0 collab.genResult
      (executeValidate collab.genResult (exps.map (fun p => p.1)) (imps.map (fun p => p.1)))
      (rt collab.genResult)).1 = _
  rw [h2]
  simp only [Nat.zero_add]
  rfl

/-- C9 counterexample: a concrete run (validation passes, the runtime
tester reports the single runtime-error-shaped issue) in which every
repair call of the generation loop is still the broad, diagnosis-less
repair — the claimed targeted fix never happens. -/
theorem C9_targeted_fix_counterexample :
    ((generate sampleCollaborator failingRuntime 3 [] []).repairTrace.map
        (fun r => (r.issues, r.isTargeted)))
      = [(["TypeError: x is undefined"], false),
         (["TypeError: x is undefined"], false),
         (["TypeError: x is undefined"], false)] ∧
    looksLikeRuntimeErrorMessage "TypeError: x is undefined" = true := by
  exact ⟨by decide, by decide⟩

/-- C9 (amended): every repair call made by the generation loop is the
broad repair carrying the full issue list with no diagnosis — even when
exactly one runtime-error-shaped issue exists — while the targeted
diagnosis-augmented fix is made only by the separate runtime-error fix
entry point. -/
theorem C9_repair_always_broad (collab : Collaborator) (rt : String → RuntimeResult)
    (maxRepairAttempts : Nat) (exps imps : List (String × String)) :
    (∀ call ∈ (generate collab rt maxRepairAttempts exps imps).repairTrace,
      call.isTargeted = false) ∧
    (∀ diagnose code errorMessage,
      ((fixRuntimeErrorCall diagnose code errorMessage).isTargeted = true ∧
       (fixRuntimeErrorCall diagnose code errorMessage).issues
         = [(diagnose errorMessage code).fullError])) := by
  obtain ⟨_, _, h3⟩ := repairLoop_spec collab rt (exps.map (fun p => p.1))
    (imps.map (fun p => p.1)) maxRepairAttempts 0 collab.genResult
    (executeValidate collab.genResult (exps.map (fun p => p.1)) (imps.map (fun p => p.1)))
    (rt collab.genResult)
  refine ⟨?_, ?_⟩
  · intro call hc
    have := h3 call hc
    simp [RepairCall.isTargeted, this]
  · intro diagnose code errorMessage
    exact ⟨rfl, rfl⟩

/-- Witness for C9 (amended) at a concrete run: the first repair call of
the failing-runtime run is broad, and the fix entry point's call is
targeted. -/
theorem C9_repair_always_broad_witness :
    RepairCall.isTargeted { issues := ["TypeError: x is undefined"], diagnosis := none }
      = false ∧
    (fixRuntimeErrorCall sampleDiagnose sampleWidgetCode "TypeError: x is undefined").isTargeted
      = true := by
  constructor
  · exact (C9_repair_always_broad sampleCollaborator failingRuntime 3 [] []).1
      { issues := ["TypeError: x is undefined"], diagnosis := none } (by decide)
  · exact ((C9_repair_always_broad sampleCollaborator failingRuntime 3 [] []).2
      sampleDiagnose sampleWidgetCode "TypeError: x is undefined").1

/-- C8 counterexample: the declared export `Selection` is never set,
and the code contains no `model.save_changes()` call, yet validation
reports no issue at all (`valid = true`): the validator skips every
export name whose first character is uppercase, contradicting the
claim's "for every declared exported state name". -/
theorem C8_export_issue_counterexample :
    strContains sampleWidgetCode "model.set(\"Selection\"" = false ∧
    strContains sampleWidgetCode "model.set('Selection'" = false ∧
    strCount sampleWidgetCode "model.save_changes()" = 0 ∧
    (executeValidate sampleWidgetCode ["Selection"] []).output
      = some { valid := true, issues := [], warnings := [],
               summary := "Found 0 issues and 0 warnings" } := by
  exact ⟨by decide, by decide, by decide, by decide⟩

/-- C8 (amended): `valid` is true iff the issue list is empty and
warnings never block success; the issue list does not depend on the
declared imports at all (a missing subscription yields only a warning);
and for every declared export name that is nonempty and does not start
with an uppercase letter, a missing `model.set` call and a missing
`model.save_changes()` call each contribute an issue.  Export names
starting with an uppercase letter are skipped by the validator. -/
theorem C8_validator_contract (code : String) (exps imps : List String) :
    (∀ o, (executeValidate code exps imps).output = some o →
      (o.valid = true ↔ o.issues = [])) ∧
    ((executeValidate code exps imps).output.map (fun o => o.issues)
      = (executeValidate code exps []).output.map (fun o => o.issues)) ∧
    (∀ name ∈ imps,
      strContains code ("model.on(\"change:" ++ name ++ "\"") = false →
      strContains code ("model.on('change:" ++ name ++ "'") = false →
      ∀ o, (executeValidate code exps imps).output = some o →
        ("Import '" ++ name ++ "' not subscribed with model.on()") ∈ o.warnings) ∧
    (∀ name ∈ exps, ∀ c cs, name.toList = c :: cs → c.isUpper = false →
      strContains code ("model.set(\"" ++ name ++ "\"") = false →
      strContains code ("model.set('" ++ name ++ "'") = false →
      ∀ o, (executeValidate code exps imps).output = some o →
        ("Export '" ++ name ++ "' never set with model.set()") ∈ o.issues) ∧
    (∀ name ∈ exps, ∀ c cs, name.toList = c :: cs → c.isUpper = false →
      strCount code "model.save_changes()" = 0 →
      ∀ o, (executeValidate code exps imps).output = some o →
        ("Missing model.save_changes() call for exports") ∈ o.issues) := by
  by_cases hg : (exps.any (fun n => n = "")) = true
  · refine ⟨?_, ?_, ?_, ?_, ?_⟩
    · intro o ho
      simp only [executeValidate, hg, if_true] at ho
      cases ho
    · simp only [executeValidate, hg, if_true]
    · intro name _ _ _ o ho
      simp only [executeValidate, hg, if_true] at ho
      cases ho
    · intro name _ c cs _ _ _ _ o ho
      simp only [executeValidate, hg, if_true] at ho
      cases ho
    · intro name _ c cs _ _ _ o ho
      simp only [executeValidate, hg, if_true] at ho
      cases ho
  · refine ⟨?_, ?_, ?_, ?_, ?_⟩
    · intro o ho
      simp only [executeValidate, hg, if_false] at ho
      have ho2 := Option.some.inj ho
      subst ho2
      constructor
      · intro hv
        exact List.isEmpty_iff.mp hv
      · intro hv
        exact List.isEmpty_iff.mpr hv
    · simp only [executeValidate, hg, if_false]
      rfl
    · intro name hname hs1 hs2 o ho
      simp only [executeValidate, hg, if_false] at ho
      have ho2 := Option.some.inj ho
      subst ho2
      have hin : ("Import '" ++ name ++ "' not subscribed with model.on()")
          ∈ importWarnings code name := by
        simp only [importWarnings, hs1, hs2]
        simp
      have hmem : ("Import '" ++ name ++ "' not subscribed with model.on()")
          ∈ ((imps.map (importWarnings code)).flatten) :=
        List.mem_flatten.mpr ⟨importWarnings code name, List.mem_map_of_mem _ hname, hin⟩
      show _ ∈ _ ++ (imps.map (importWarnings code)).flatten ++ _ ++ _
      simp only [List.mem_append]
      exact Or.inl (Or.inl (Or.inr hmem))
    · intro name hname c cs hcl hupper hs1 hs2 o ho
      simp only [executeValidate, hg, if_false] at ho
      have ho2 := Option.some.inj ho
      subst ho2
      have hin : ("Export '" ++ name ++ "' never set with model.set()")
          ∈ exportIssues code name := by
        simp only [exportIssues, hcl, hupper, hs1, hs2]
        simp
      have hmem : ("Export '" ++ name ++ "' never set with model.set()")
          ∈ ((exps.map (exportIssues code)).flatten) :=
        List.mem_flatten.mpr ⟨exportIssues code name, List.mem_map_of_mem _ hname, hin⟩
      show _ ∈ _ ++ _ ++ (exps.map (exportIssues code)).flatten ++ _ ++ _
      simp only [List.mem_append]
      exact Or.inl (Or.inl (Or.inr hmem))
    · intro name hname c cs hcl hupper hcount o ho
      simp only [executeValidate, hg, if_false] at ho
      have ho2 := Option.some.inj ho
      subst ho2
      have hin : ("Missing model.save_changes() call for exports")
          ∈ exportIssues code name := by
        simp only [exportIssues, hcl, hupper, hcount]
        simp
      have hmem : ("Missing model.save_changes() call for exports")
          ∈ ((exps.map (exportIssues code)).flatten) :=
        List.mem_flatten.mpr ⟨exportIssues code name, List.mem_map_of_mem _ hname, hin⟩
      show _ ∈ _ ++ _ ++ (exps.map (exportIssues code)).flatten ++ _ ++ _
      simp only [List.mem_append]
      exact Or.inl (Or.inl (Or.inr hmem))

/-- Witness for C8 (amended) at a concrete input: for the
lowercase-initial export `sel` the missing-set issue is present, the
missing-subscription import produces only a warning, and validity
matches emptiness of the issue list. -/
theorem C8_validator_contract_witness :
    (match (executeValidate sampleWidgetCode ["sel"] ["other"]).output with
     | some o => ("Export 'sel' never set with model.set()") ∈ o.issues ∧
         ("Import 'other' not subscribed with model.on()") ∈ o.warnings ∧
         (o.valid = true ↔ o.issues = [])
     | none => False) := by
  rcases hres : (executeValidate sampleWidgetCode ["sel"] ["other"]).output with _ | o
  · exact absurd hres (by decide)
  · refine ⟨?_, ?_, ?_⟩
    · exact (C8_validator_contract sampleWidgetCode ["sel"] ["other"]).2.2.2.1 "sel"
        (by decide) 's' ['e', 'l'] (by decide) (by decide) (by decide) (by decide) o hres
    · exact (C8_validator_contract sampleWidgetCode ["sel"] ["other"]).2.2.1 "other"
        (by decide) (by decide) (by decide) o hres
    · exact (C8_validator_contract sampleWidgetCode ["sel"] ["other"]).1 o hres

theorem normalizeLocation_lines_ne_nil {loc : Location} {ls : List Nat}
    (h : normalizeLocation loc = .lines ls) : ls ≠ [] := by
  cases loc with
  | global => cases h
  | lines ms =>
    cases ms with
    | nil => cases h
    | cons a as =>
      cases h
      simp

/-- C1: the per-concern staleness test of a reuse-enabled audit run: a
global concern is reusable iff the stored whole-code hash equals the
current one; a line-scoped concern is reusable iff its stored hash list
has exactly the length of its location list and for every referenced
line the stored hash equals the current hash at that line; in
particular a referenced line that is absent from the current code while
an actual hash was stored makes the concern stale. -/
theorem C1_concern_staleness (prevCodeHash curCodeHash : String)
    (curLines : List String) (c : Concern) :
    (normalizeLocation c.location = .global →
      (classifyConcern prevCodeHash curCodeHash curLines c = true ↔
        prevCodeHash = curCodeHash)) ∧
    (∀ ls, normalizeLocation c.location = .lines ls →
      (classifyConcern prevCodeHash curCodeHash curLines c = true ↔
        (c.lineHashes.length = ls.length ∧
         ∀ p ∈ ls.zip c.lineHashes, lineHashAt curLines p.1 = p.2))) ∧
    (∀ ls, normalizeLocation c.location = .lines ls →
      ∀ p ∈ ls.zip c.lineHashes, p.2.isSome = true → lineHashAt curLines p.1 = none →
        classifyConcern prevCodeHash curCodeHash curLines c = false) := by
  have hlines : ∀ ls, normalizeLocation c.location = .lines ls →
      (classifyConcern prevCodeHash curCodeHash curLines c = true ↔
        (c.lineHashes.length = ls.length ∧
         ∀ p ∈ ls.zip c.lineHashes, lineHashAt curLines p.1 = p.2)) := by
    intro ls hl
    simp only [classifyConcern, hl]
    constructor
    · intro h
      split at h
      · cases h
      case _ hguard =>
        simp only [Bool.or_eq_true, not_or] at hguard
        refine ⟨?_, ?_⟩
        · have hb := hguard.2
          rw [bne_iff_ne] at hb
          exact not_ne_iff.mp hb
        · intro p hp
          exact beq_iff_eq.mp (List.all_eq_true.mp h p hp)
    · intro h
      obtain ⟨h1, h2⟩ := h
      have hne := normalizeLocation_lines_ne_nil hl
      have hnonempty : c.lineHashes.isEmpty = false := by
        cases hls : c.lineHashes with
        | nil =>
          rw [hls] at h1
          cases ls with
          | nil => exact absurd rfl hne
          | cons a as => cases h1
        | cons a as => rfl
      have hguard : (c.lineHashes.isEmpty || (c.lineHashes.length != ls.length)) = false := by
        rw [hnonempty, h1]
        simp
      rw [if_neg (by simp [hguard])]
      exact List.all_eq_true.mpr (fun p hp => beq_iff_eq.mpr (h2 p hp))
  refine ⟨?_, hlines, ?_⟩
  · intro hg
    simp only [classifyConcern, hg]
    exact beq_iff_eq
  · intro ls hl p hp hsome hnone
    by_cases hcl : classifyConcern prevCodeHash curCodeHash curLines c = true
    · have := ((hlines ls hl).mp hcl).2 p hp
      rw [hnone] at this
      cases hp2 : p.2 with
      | none =>
        rw [hp2] at hsome
        cases hsome
      | some v =>
        rw [hp2] at this
        cases this
    · exact Bool.eq_false_iff.mpr hcl

/-- Witness for C1 on a concrete two-line artifact: a line-scoped
concern whose stored hashes all match is reusable; one referencing an
absent line with an actual stored hash is stale; a global concern with
an unchanged whole-code hash is reusable. -/
theorem C1_concern_staleness_witness :
    classifyConcern (computeCodeHash sampleCode) (computeCodeHash sampleCode)
      (computeLineHashes sampleCode)
      { id := "a", location := Location.lines [1, 2],
        lineHashes := [some (sha256Hex "line one"), some (sha256Hex "line two")],
        body := "" } = true ∧
    classifyConcern (computeCodeHash sampleCode) (computeCodeHash sampleCode)
      (computeLineHashes sampleCode)
      { id := "b", location := Location.lines [3],
        lineHashes := [some (sha256Hex "line one")], body := "" } = false ∧
    classifyConcern "h1" "h1" (computeLineHashes sampleCode)
      { id := "c", location := Location.global, lineHashes := [], body := "" } = true := by
  refine ⟨?_, ?_, ?_⟩
  · exact ((C1_concern_staleness _ _ _ _).2.1 [1, 2] (by decide)).mpr ⟨by decide, by decide⟩
  · exact (C1_concern_staleness _ _ _ _).2.2 [3] (by decide) (3, some (sha256Hex "line one"))
      (by decide) (by decide) (by decide)
  · exact ((C1_concern_staleness _ _ _ _).1 (by decide)).mpr rfl

theorem filterFreshConcerns_cons_global {c : Concern} (ch : Option (List Nat))
    (cur : List String) (cs : List Concern)
    (h : normalizeLocation c.location = Location.global) :
    filterFreshConcerns ch cur (c :: cs)
      = { c with location := Location.global } :: filterFreshConcerns ch cur cs := by
  simp only [filterFreshConcerns, List.filterMap_cons, h]

theorem filterFreshConcerns_cons_lines {c : Concern} {ls : List Nat}
    (ch : Option (List Nat)) (cur : List String) (cs : List Concern)
    (h : normalizeLocation c.location = Location.lines ls) :
    filterFreshConcerns ch cur (c :: cs)
      = (if keepLines ch ls then
          { c with location := Location.lines ls
                   lineHashes := ls.map (fun l => lineHashAt cur l) }
            :: filterFreshConcerns ch cur cs
         else filterFreshConcerns ch cur cs) := by
  simp only [filterFreshConcerns, List.filterMap_cons, h]
  by_cases hk : keepLines ch ls = true
  · rw [if_pos hk, if_pos hk]
  · rw [if_neg hk, if_neg hk]

theorem filterFresh_filter_eq (ch : Option (List Nat)) (cur : List String)
    (ids : List String) (fresh : List Concern) :
    (filterFreshConcerns ch cur fresh).filter (fun c => !(ids.contains c.id))
      = (fresh.map (fun c =>
          match normalizeLocation c.location with
          | .global => { c with location := Location.global }
          | .lines ls =>
            { c with location := Location.lines ls
                     lineHashes := ls.map (fun l => lineHashAt cur l) })).filter
        (fun c =>
          (match c.location with
           | .lines ls => keepLines ch ls
           | .global => true) &&
          !(ids.contains c.id)) := by
  induction fresh with
  | nil => rfl
  | cons c cs ih =>
    rcases hnl : normalizeLocation c.location with _ | ls
    · rw [filterFreshConcerns_cons_global ch cur cs hnl]
      simp only [List.map_cons, hnl, List.filter_cons, Bool.true_and]
      rw [ih]
    · by_cases hk : keepLines ch ls = true
      · rw [filterFreshConcerns_cons_lines ch cur cs hnl, if_pos hk]
        simp only [List.map_cons, hnl, List.filter_cons, hk, Bool.true_and]
        rw [ih]
      · have hk2 : keepLines ch ls = false := Bool.eq_false_iff.mpr hk
        rw [filterFreshConcerns_cons_lines ch cur cs hnl, if_neg hk]
        simp only [List.map_cons, hnl, List.filter_cons, hk2, Bool.false_and,
          Bool.false_eq_true, if_false]
        exact ih

theorem dedupFirst_go (l acc : List String) :
    l.foldl (fun acc x => if acc.contains x then acc else acc ++ [x]) acc
      = acc ++ dedupFirstSpec (l.filter (fun y => !(acc.contains y))) := by
  induction l generalizing acc with
  | nil => simp [dedupFirstSpec]
  | cons x xs ih =>
    simp only [List.foldl_cons, List.filter_cons]
    by_cases hx : (acc.contains x) = true
    · rw [if_pos hx]
      simp only [hx, Bool.not_true, Bool.false_eq_true, if_false]
      exact ih acc
    · rw [if_neg hx]
      have hx2 : acc.contains x = false := Bool.eq_false_iff.mpr hx
      simp only [hx2, Bool.not_false, if_true]
      rw [ih (acc ++ [x])]
      simp only [dedupFirstSpec, List.append_assoc, List.singleton_append]
      congr 2
      rw [List.filter_filter]
      apply congrArg
      apply List.filter_congr
      intro y _
      by_cases hyx : y = x
      · subst hyx
        simp
      · have h1 : ((acc ++ [x]).contains y) = (acc.contains y) := by
          simp [List.mem_append, hyx]
        rw [h1]
        simp [hyx]

theorem dedupFirst_eq_spec (l : List String) : dedupFirst l = dedupFirstSpec l := by
  have h := dedupFirst_go l []
  simpa [dedupFirst] using h

theorem dedupFirstSpec_mem : ∀ (l : List String) (q : String),
    q ∈ dedupFirstSpec l ↔ q ∈ l := by
  intro l
  induction l using dedupFirstSpec.induct with
  | case1 => intro q; simp [dedupFirstSpec]
  | case2 x xs ih =>
    intro q
    simp only [dedupFirstSpec, List.mem_cons]
    constructor
    · intro h
      rcases h with h | h
      · exact Or.inl h
      · exact Or.inr (List.mem_filter.mp ((ih q).mp h)).1
    · intro h
      rcases h with h | h
      · exact Or.inl h
      · by_cases hqx : q = x
        · exact Or.inl hqx
        · refine Or.inr ((ih q).mpr (List.mem_filter.mpr ⟨h, ?_⟩))
          simp [hqx]

theorem dedupFirstSpec_nodup : ∀ (l : List String), (dedupFirstSpec l).Nodup := by
  intro l
  induction l using dedupFirstSpec.induct with
  | case1 => simp [dedupFirstSpec]
  | case2 x xs ih =>
    simp only [dedupFirstSpec, List.nodup_cons]
    refine ⟨?_, ih⟩
    intro hmem
    have := (List.mem_filter.mp ((dedupFirstSpec_mem _ x).mp hmem)).2
    simp at this

/-- C5: the merged report of an audit run: the merged concern list is
all reusable prior concerns followed by exactly those freshly returned
concerns that (when line-scoped while a changed-line set exists)
reference at least one changed line and whose id does not occur among
the reused concerns — on an id collision the reused concern wins — with
line hashes of surviving line-scoped fresh concerns recomputed from the
current code; merged open questions are the previous followed by the
new ones, de-duplicated preserving first-seen order. -/
theorem C5_merge_semantics (changedLines : Option (List Nat)) (curLines : List String)
    (reused fresh : List Concern) (prevQs newQs : List String) :
    mergeConcerns reused (filterFreshConcerns changedLines curLines fresh)
      = mergedConcernsClaim changedLines curLines reused fresh ∧
    mergeQuestions prevQs newQs = dedupFirstSpec (prevQs ++ newQs) ∧
    (mergeQuestions prevQs newQs).Nodup ∧
    (∀ q, q ∈ mergeQuestions prevQs newQs ↔ q ∈ prevQs ∨ q ∈ newQs) ∧
    (∀ (st : AuditStoreState) (oracle : Option (List Nat) → Report) (level : Level)
        (curCodeHash : String) (wid : Option String),
      (runAuditFresh st oracle level curCodeHash curLines wid reused prevQs
          changedLines).1.report
        = stripInternalFields
          { concerns := mergedConcernsClaim changedLines curLines reused
              (normalizeFreshReport (oracle changedLines)).concerns
            openQuestions := dedupFirstSpec
              (prevQs ++ (normalizeFreshReport (oracle changedLines)).openQuestions)
            meta := (normalizeFreshReport (oracle changedLines)).meta }) := by
  have hconc : ∀ fr, mergeConcerns reused (filterFreshConcerns changedLines curLines fr)
      = mergedConcernsClaim changedLines curLines reused fr := by
    intro fr
    show reused ++ (filterFreshConcerns changedLines curLines fr).filter
        (fun c => !((reused.map (fun c => c.id)).contains c.id))
      = mergedConcernsClaim changedLines curLines reused fr
    unfold mergedConcernsClaim
    congr 1
    exact filterFresh_filter_eq changedLines curLines (reused.map (fun c => c.id)) fr
  have hq : ∀ nq, mergeQuestions prevQs nq = dedupFirstSpec (prevQs ++ nq) := by
    intro nq
    unfold mergeQuestions
    exact dedupFirst_eq_spec _
  refine ⟨hconc fresh, hq newQs, ?_, ?_, ?_⟩
  · rw [hq newQs]
    exact dedupFirstSpec_nodup _
  · intro q
    rw [hq newQs, dedupFirstSpec_mem]
    exact List.mem_append
  · intro st oracle level curCodeHash wid
    show stripInternalFields
        { concerns := mergeConcerns reused (filterFreshConcerns changedLines curLines
            (normalizeFreshReport (oracle changedLines)).concerns)
          openQuestions := mergeQuestions prevQs
            (normalizeFreshReport (oracle changedLines)).openQuestions
          meta := (normalizeFreshReport (oracle changedLines)).meta } = _
    rw [hconc, hq]

theorem classify_self {p cur : String} {curLines : List String} {c : Concern}
    (h : classifyConcern p cur curLines c = true) :
    classifyConcern cur cur curLines c = true := by
  unfold classifyConcern at h ⊢
  rcases hnl : normalizeLocation c.location with _ | ls
  · simp only [hnl] at h ⊢
    simp
  · simp only [hnl] at h ⊢
    exact h

theorem normalizeLocation_lines_of_ne_nil {ls : List Nat} (h : ls ≠ []) :
    normalizeLocation (Location.lines ls) = Location.lines ls := by
  cases ls with
  | nil => exact absurd rfl h
  | cons a as => rfl

theorem zip_map_all {α β : Type} [BEq β] [LawfulBEq β] (f : α → β) (ls : List α) :
    (ls.zip (ls.map f)).all (fun p => f p.1 == p.2) = true := by
  induction ls with
  | nil => rfl
  | cons a as ih =>
    simp only [List.map_cons, List.zip_cons_cons, List.all_cons, ih, Bool.and_true]
    simp

theorem filterFresh_all_reusable (ch : Option (List Nat)) (cur2 : String)
    (curLines : List String) (cs : List Concern) :
    ∀ c ∈ filterFreshConcerns ch curLines cs,
      classifyConcern cur2 cur2 curLines c = true := by
  intro c hc
  obtain ⟨a, ha, hfa⟩ := List.mem_filterMap.mp hc
  rcases hnl : normalizeLocation a.location with _ | ls
  · simp only [hnl] at hfa
    have hc2 := Option.some.inj hfa
    subst hc2
    simp [classifyConcern, normalizeLocation]
  · simp only [hnl] at hfa
    by_cases hk : keepLines ch ls = true
    · rw [if_pos hk] at hfa
      have hc2 := Option.some.inj hfa
      subst hc2
      have hne : ls ≠ [] := normalizeLocation_lines_ne_nil hnl
      show classifyConcern cur2 cur2 curLines
        { a with location := Location.lines ls
                 lineHashes := ls.map (fun l => lineHashAt curLines l) } = true
      unfold classifyConcern
      simp only [normalizeLocation_lines_of_ne_nil hne]
      rw [if_neg ?_]
      · exact zip_map_all (fun l => lineHashAt curLines l) ls
      · have hmapne : (ls.map (fun l => lineHashAt curLines l)).isEmpty = false := by
          cases ls with
          | nil => exact absurd rfl hne
          | cons b bs => rfl
        simp [hmapne]
    · rw [if_neg hk] at hfa
      cases hfa

theorem mem_mergeConcerns {reused fresh : List Concern} {c : Concern}
    (h : c ∈ mergeConcerns reused fresh) : c ∈ reused ∨ c ∈ fresh := by
  have h2 : c ∈ reused ++ fresh.filter
      (fun x => !((reused.map (fun r => r.id)).contains x.id)) := h
  rcases List.mem_append.mp h2 with h | h
  · exact Or.inl h
  · exact Or.inr (List.mem_filter.mp h).1

theorem loadLatestAudit_saveAudit (st : AuditStoreState) (wid : String) (level : Level)
    (rep : Report) (yaml chash : String) (lhs : List String) :
    loadLatestAudit (saveAudit st wid level rep yaml chash lhs).2 wid level
      = some (saveAudit st wid level rep yaml chash lhs).1 := by
  simp [loadLatestAudit, saveAudit, List.find?]

theorem runAudit_unfold (st : AuditStoreState) (oracle : Option (List Nat) → Report)
    (level : Level) (code : String) (w : String) (base : Option String)
    (hcode : ¬ code = "") :
    runAudit st oracle level true code (some w) base
      = (match (match loadLatestAudit st w level with
                | some r => some r
                | none => base.bind (fun b => loadLatestAudit st b level)) with
         | some prev =>
           if (prev.report.concerns.filter (fun c => ¬ classifyConcern prev.codeHash
                (computeCodeHash code) (computeLineHashes code) c)).isEmpty ∧
              prev.codeHash = computeCodeHash code then
             Except.ok ({ report := stripInternalFields prev.report
                          reportYaml := prev.reportYaml
                          auditId := prev.entry.auditId
                          reusedCount := (prev.report.concerns.filter
                            (fun c => classifyConcern prev.codeHash (computeCodeHash code)
                              (computeLineHashes code) c)).length
                          updatedCount := 0 }, st, 0)
           else
             Except.ok (runAuditFresh st oracle level (computeCodeHash code)
               (computeLineHashes code) (some w)
               (prev.report.concerns.filter (fun c => classifyConcern prev.codeHash
                 (computeCodeHash code) (computeLineHashes code) c))
               prev.report.openQuestions
               (if (changedLineSet prev.lineHashes (computeLineHashes code)).isEmpty then none
                else some (changedLineSet prev.lineHashes (computeLineHashes code))))
         | none =>
           Except.ok (runAuditFresh st oracle level (computeCodeHash code)
             (computeLineHashes code) (some w) [] [] none)) := by
  unfold runAudit
  rw [if_neg hcode]
  rfl

theorem runAudit_fast (st : AuditStoreState) (oracle : Option (List Nat) → Report)
    (level : Level) (code : String) (w : String) (base : Option String)
    (rec : AuditRecord) (hcode : ¬ code = "")
    (hload : loadLatestAudit st w level = some rec)
    (hhash : rec.codeHash = computeCodeHash code)
    (hall : ∀ c ∈ rec.report.concerns,
      classifyConcern rec.codeHash (computeCodeHash code) (computeLineHashes code) c
        = true) :
    runAudit st oracle level true code (some w) base
      = Except.ok ({ report := stripInternalFields rec.report
                     reportYaml := rec.reportYaml
                     auditId := rec.entry.auditId
                     reusedCount := rec.report.concerns.length
                     updatedCount := 0 }, st, 0) := by
  rw [runAudit_unfold st oracle level code w base hcode]
  simp only [hload]
  have hstale : rec.report.concerns.filter (fun c => ¬ classifyConcern rec.codeHash
      (computeCodeHash code) (computeLineHashes code) c) = [] := by
    apply List.filter_eq_nil_iff.mpr
    intro c hc
    simp [hall c hc]
  have hreused : rec.report.concerns.filter (fun c => classifyConcern rec.codeHash
      (computeCodeHash code) (computeLineHashes code) c) = rec.report.concerns :=
    List.filter_eq_self.mpr (fun c hc => hall c hc)
  rw [if_pos ⟨by rw [hstale]; rfl, hhash⟩, hreused]

theorem loadLatest_after_fresh (st : AuditStoreState) (oracle : Option (List Nat) → Report)
    (level : Level) (curHash : String) (curLines : List String) (w : String)
    (reused : List Concern) (prevQs : List String) (ch : Option (List Nat)) :
    ∃ rec, loadLatestAudit (runAuditFresh st oracle level curHash curLines (some w)
        reused prevQs ch).2.1 w level = some rec ∧
      rec.report.concerns = mergeConcerns reused (filterFreshConcerns ch curLines
        (normalizeFreshReport (oracle ch)).concerns) ∧
      rec.codeHash = curHash ∧
      stripInternalFields rec.report
        = (runAuditFresh st oracle level curHash curLines (some w) reused prevQs ch).1.report ∧
      rec.reportYaml
        = (runAuditFresh st oracle level curHash curLines (some w) reused prevQs ch).1.reportYaml := by
  exact ⟨_, loadLatestAudit_saveAudit st w level _ _ curHash curLines, rfl, rfl, rfl, rfl⟩

/-- C3: the audit fast path and its idempotence: a reuse-enabled run
that finds a prior record at this level with an unchanged whole-code
hash, all of whose concerns classify as reusable, returns the prior
report verbatim with zero collaborator calls and an untouched store;
consequently, running the audit twice with no code change in between
yields byte-identical reports and zero collaborator calls on the second
run (and the run cannot fail once the code is nonempty). -/
theorem C3_fast_path_idempotent (st : AuditStoreState)
    (oracle oracle₂ : Option (List Nat) → Report) (level : Level) (code : String)
    (w : String) (base : Option String) (hcode : ¬ code = "") :
    (∀ rec, loadLatestAudit st w level = some rec →
      rec.codeHash = computeCodeHash code →
      (∀ c ∈ rec.report.concerns, classifyConcern rec.codeHash (computeCodeHash code)
        (computeLineHashes code) c = true) →
      runAudit st oracle level true code (some w) base
        = Except.ok ({ report := stripInternalFields rec.report
                       reportYaml := rec.reportYaml
                       auditId := rec.entry.auditId
                       reusedCount := rec.report.concerns.length
                       updatedCount := 0 }, st, 0)) ∧
    (∀ res₁ st₁ n₁, runAudit st oracle level true code (some w) base
        = Except.ok (res₁, st₁, n₁) →
      ∀ res₂ st₂ n₂, runAudit st₁ oracle₂ level true code (some w) base
          = Except.ok (res₂, st₂, n₂) →
        res₂.report = res₁.report ∧ res₂.reportYaml = res₁.reportYaml ∧
        n₂ = 0 ∧ st₂ = st₁) ∧
    (∀ st' : AuditStoreState, ∃ x,
      runAudit st' oracle₂ level true code (some w) base = Except.ok x) := by
  refine ⟨?_, ?_, ?_⟩
  · intro rec hload hhash hall
    exact runAudit_fast st oracle level code w base rec hcode hload hhash hall
  · intro res₁ st₁ n₁ h1 res₂ st₂ n₂ h2
    rw [runAudit_unfold st oracle level code w base hcode] at h1
    rcases hload : loadLatestAudit st w level with _ | rec₀
    all_goals simp only [hload] at h1
    case none =>
      rcases hbase : base.bind (fun b => loadLatestAudit st b level) with _ | recB
      all_goals simp only [hbase] at h1
      case none =>
        have h1e := Except.ok.inj h1
        have hres₁ : (runAuditFresh st oracle level (computeCodeHash code)
            (computeLineHashes code) (some w) [] [] none).1 = res₁ :=
          congrArg Prod.fst h1e
        have hst₁ : (runAuditFresh st oracle level (computeCodeHash code)
            (computeLineHashes code) (some w) [] [] none).2.1 = st₁ :=
          congrArg (fun x => x.2.1) h1e
        obtain ⟨rec, hL, hconc, hhash2, hstrip, hyaml⟩ := loadLatest_after_fresh st oracle
          level (computeCodeHash code) (computeLineHashes code) w [] [] none
        rw [hst₁] at hL
        have hall : ∀ c ∈ rec.report.concerns, classifyConcern rec.codeHash
            (computeCodeHash code) (computeLineHashes code) c = true := by
          intro c hc
          rw [hconc] at hc
          rw [hhash2]
          rcases mem_mergeConcerns hc with h | h
          · cases h
          · exact filterFresh_all_reusable none _ _ _ c h
        rw [runAudit_fast st₁ oracle₂ level code w base rec hcode hL hhash2 hall] at h2
        have h2e := Except.ok.inj h2
        refine ⟨?_, ?_, ?_, ?_⟩
        · have := congrArg (fun x => x.1.report) h2e
          simp only at this
          rw [← this, hstrip, hres₁]
        · have := congrArg (fun x => x.1.reportYaml) h2e
          simp only at this
          rw [← this, hyaml, hres₁]
        · exact (congrArg (fun x => x.2.2) h2e).symm
        · exact (congrArg (fun x => x.2.1) h2e).symm
      case some =>
        by_cases hfastc : (recB.report.concerns.filter (fun c => ¬ classifyConcern
            recB.codeHash (computeCodeHash code) (computeLineHashes code) c)).isEmpty = true
            ∧ recB.codeHash = computeCodeHash code
        · rw [if_pos hfastc] at h1
          have h1e := Except.ok.inj h1
          have hst₁ : st = st₁ := congrArg (fun x => x.2.1) h1e
          have hres₁ : res₁.report = stripInternalFields recB.report ∧
              res₁.reportYaml = recB.reportYaml := by
            have hr := congrArg (fun x => x.1.report) h1e
            have hy := congrArg (fun x => x.1.reportYaml) h1e
            exact ⟨hr.symm, hy.symm⟩
          have hall : ∀ c ∈ recB.report.concerns, classifyConcern recB.codeHash
              (computeCodeHash code) (computeLineHashes code) c = true := by
            intro c hc
            have hnil := List.isEmpty_iff.mp hfastc.1
            have := List.filter_eq_nil_iff.mp hnil c hc
            simpa using this
          rw [runAudit_unfold st₁ oracle₂ level code w base hcode] at h2
          have hload₂ : loadLatestAudit st₁ w level = none := by
            rw [← hst₁]
            exact hload
          have hbase₂ : base.bind (fun b => loadLatestAudit st₁ b level) = some recB := by
            rw [← hst₁]
            exact hbase
          simp only [hload₂, hbase₂] at h2
          rw [if_pos hfastc] at h2
          have h2e := Except.ok.inj h2
          refine ⟨?_, ?_, ?_, ?_⟩
          · have := congrArg (fun x => x.1.report) h2e
            simp only at this
            rw [← this, hres₁.1]
          · have := congrArg (fun x => x.1.reportYaml) h2e
            simp only at this
            rw [← this, hres₁.2]
          · exact (congrArg (fun x => x.2.2) h2e).symm
          · exact (congrArg (fun x => x.2.1) h2e).symm
        · rw [if_neg hfastc] at h1
          have h1e := Except.ok.inj h1
          have hres₁ : (runAuditFresh st oracle level (computeCodeHash code)
              (computeLineHashes code) (some w)
              (recB.report.concerns.filter (fun c => classifyConcern recB.codeHash
                (computeCodeHash code) (computeLineHashes code) c))
              recB.report.openQuestions
              (if (changedLineSet recB.lineHashes (computeLineHashes code)).isEmpty then none
               else some (changedLineSet recB.lineHashes (computeLineHashes code)))).1
              = res₁ := congrArg Prod.fst h1e
          have hst₁ : (runAuditFresh st oracle level (computeCodeHash code)
              (computeLineHashes code) (some w)
              (recB.report.concerns.filter (fun c => classifyConcern recB.codeHash
                (computeCodeHash code) (computeLineHashes code) c))
              recB.report.openQuestions
              (if (changedLineSet recB.lineHashes (computeLineHashes code)).isEmpty then none
               else some (changedLineSet recB.lineHashes (computeLineHashes code)))).2.1
              = st₁ := congrArg (fun x => x.2.1) h1e
          obtain ⟨rec, hL, hconc, hhash2, hstrip, hyaml⟩ := loadLatest_after_fresh st oracle
            level (computeCodeHash code) (computeLineHashes code) w
            (recB.report.concerns.filter (fun c => classifyConcern recB.codeHash
              (computeCodeHash code) (computeLineHashes code) c))
            recB.report.openQuestions
            (if (changedLineSet recB.lineHashes (computeLineHashes code)).isEmpty then none
             else some (changedLineSet recB.lineHashes (computeLineHashes code)))
          rw [hst₁] at hL
          have hall : ∀ c ∈ rec.report.concerns, classifyConcern rec.codeHash
              (computeCodeHash code) (computeLineHashes code) c = true := by
            intro c hc
            rw [hconc] at hc
            rw [hhash2]
            rcases mem_mergeConcerns hc with h | h
            · exact classify_self (List.mem_filter.mp h).2
            · exact filterFresh_all_reusable _ _ _ _ c h
          rw [runAudit_fast st₁ oracle₂ level code w base rec hcode hL hhash2 hall] at h2
          have h2e := Except.ok.inj h2
          refine ⟨?_, ?_, ?_, ?_⟩
          · have := congrArg (fun x => x.1.report) h2e
            simp only at this
            rw [← this, hstrip, hres₁]
          · have := congrArg (fun x => x.1.reportYaml) h2e
            simp only at this
            rw [← this, hyaml, hres₁]
          · exact (congrArg (fun x => x.2.2) h2e).symm
          · exact (congrArg (fun x => x.2.1) h2e).symm
    case some =>
      by_cases hfastc : (rec₀.report.concerns.filter (fun c => ¬ classifyConcern
          rec₀.codeHash (computeCodeHash code) (computeLineHashes code) c)).isEmpty = true
          ∧ rec₀.codeHash = computeCodeHash code
      · rw [if_pos hfastc] at h1
        have h1e := Except.ok.inj h1
        have hst₁ : st = st₁ := congrArg (fun x => x.2.1) h1e
        have hres₁ : res₁.report = stripInternalFields rec₀.report ∧
            res₁.reportYaml = rec₀.reportYaml := by
          have hr := congrArg (fun x => x.1.report) h1e
          have hy := congrArg (fun x => x.1.reportYaml) h1e
          exact ⟨hr.symm, hy.symm⟩
        have hall : ∀ c ∈ rec₀.report.concerns, classifyConcern rec₀.codeHash
            (computeCodeHash code) (computeLineHashes code) c = true := by
          intro c hc
          have hnil := List.isEmpty_iff.mp hfastc.1
          have := List.filter_eq_nil_iff.mp hnil c hc
          simpa using this
        have hload₂ : loadLatestAudit st₁ w level = some rec₀ := by
          rw [← hst₁]
          exact hload
        rw [runAudit_fast st₁ oracle₂ level code w base rec₀ hcode hload₂ hfastc.2 hall]
          at h2
        have h2e := Except.ok.inj h2
        refine ⟨?_, ?_, ?_, ?_⟩
        · have := congrArg (fun x => x.1.report) h2e
          simp only at this
          rw [← this, hres₁.1]
        · have := congrArg (fun x => x.1.reportYaml) h2e
          simp only at this
          rw [← this, hres₁.2]
        · exact (congrArg (fun x => x.2.2) h2e).symm
        · exact (congrArg (fun x => x.2.1) h2e).symm
      · rw [if_neg hfastc] at h1
        have h1e := Except.ok.inj h1
        have hres₁ : (runAuditFresh st oracle level (computeCodeHash code)
            (computeLineHashes code) (some w)
            (rec₀.report.concerns.filter (fun c => classifyConcern rec₀.codeHash
              (computeCodeHash code) (computeLineHashes code) c))
            rec₀.report.openQuestions
            (if (changedLineSet rec₀.lineHashes (computeLineHashes code)).isEmpty then none
             else some (changedLineSet rec₀.lineHashes (computeLineHashes code)))).1
            = res₁ := congrArg Prod.fst h1e
        have hst₁ : (runAuditFresh st oracle level (computeCodeHash code)
            (computeLineHashes code) (some w)
            (rec₀.report.concerns.filter (fun c => classifyConcern rec₀.codeHash
              (computeCodeHash code) (computeLineHashes code) c))
            rec₀.report.openQuestions
            (if (changedLineSet rec₀.lineHashes (computeLineHashes code)).isEmpty then none
             else some (changedLineSet rec₀.lineHashes (computeLineHashes code)))).2.1
            = st₁ := congrArg (fun x => x.2.1) h1e
        obtain ⟨rec, hL, hconc, hhash2, hstrip, hyaml⟩ := loadLatest_after_fresh st oracle
          level (computeCodeHash code) (computeLineHashes code) w
          (rec₀.report.concerns.filter (fun c => classifyConcern rec₀.codeHash
            (computeCodeHash code) (computeLineHashes code) c))
          rec₀.report.openQuestions
          (if (changedLineSet rec₀.lineHashes (computeLineHashes code)).isEmpty then none
           else some (changedLineSet rec₀.lineHashes (computeLineHashes code)))
        rw [hst₁] at hL
        have hall : ∀ c ∈ rec.report.concerns, classifyConcern rec.codeHash
            (computeCodeHash code) (computeLineHashes code) c = true := by
          intro c hc
          rw [hconc] at hc
          rw [hhash2]
          rcases mem_mergeConcerns hc with h | h
          · exact classify_self (List.mem_filter.mp h).2
          · exact filterFresh_all_reusable _ _ _ _ c h
        rw [runAudit_fast st₁ oracle₂ level code w base rec hcode hL hhash2 hall] at h2
        have h2e := Except.ok.inj h2
        refine ⟨?_, ?_, ?_, ?_⟩
        · have := congrArg (fun x => x.1.report) h2e
          simp only at this
          rw [← this, hstrip, hres₁]
        · have := congrArg (fun x => x.1.reportYaml) h2e
          simp only at this
          rw [← this, hyaml, hres₁]
        · exact (congrArg (fun x => x.2.2) h2e).symm
        · exact (congrArg (fun x => x.2.1) h2e).symm
  · intro st'
    rw [runAudit_unfold st' oracle₂ level code w base hcode]
    generalize (match loadLatestAudit st' w level with
                | some r => some r
                | none => base.bind (fun b => loadLatestAudit st' b level)) = p
    cases p with
    | none => exact ⟨_, rfl⟩
    | some prev =>
      by_cases hfastc : (prev.report.concerns.filter (fun c => ¬ classifyConcern
          prev.codeHash (computeCodeHash code) (computeLineHashes code) c)).isEmpty = true
          ∧ prev.codeHash = computeCodeHash code
      · exact ⟨_, by simp only [if_pos hfastc]; rfl⟩
      · exact ⟨_, by simp only [if_neg hfastc]; rfl⟩

/-- Closed witness for C3: the sample code is nonempty, and a
reuse-enabled audit run on the empty store succeeds. -/
theorem C3_fast_path_idempotent_witness :
    (¬ sampleCode = "") ∧
    ∃ x, runAudit (AuditStoreState.mk []) sampleOracle Level.fast true sampleCode
      (some "wid") none = Except.ok x :=
  ⟨by decide,
   (C3_fast_path_idempotent (AuditStoreState.mk []) sampleOracle sampleOracle Level.fast
      sampleCode "wid" none (by decide)).2.2 (AuditStoreState.mk [])⟩

end VibeWidget
